import Mathlib

/-!
Verification development for the ZkVanguard STARK engine
(src/zkp/core/cuda_true_stark.py).

The Python module is shallowly embedded here:

* Python byte strings (and the ASCII strings of the transcript: hexadecimal
  digests and decimal integers) are modelled as lists of byte values
  (type Bytes, a list of Nat).  Python str and bytes of ASCII data are
  in bijection, so string fields of the proof dictionary are carried as
  their ASCII byte sequences.
* Machine integers are Nat (or Int where Python values can be negative),
  with explicit reduction modulo the field prime where the source reduces.
* hashlib.sha256 is implemented bit-compatibly (FIPS 180-4) over byte
  lists; the round constants are the standard ones and are re-derived
  from the fractional parts of cube roots of the first 64 primes in a
  theorem below.
* Fallible code (field inversion of zero, the Python statements that can
  raise) returns Option; a raised exception is modelled as none.
* The statement dictionary enters the protocol only through its canonical
  JSON serialization (json.dumps(..., sort_keys=True) on both the prover
  and the verifier side), so a statement is modelled by that serialized
  byte string.  The witness dictionary is read only through the keys
  secret_value / age / value, so it is modelled as a record of those
  three optional fields (integer or string valued).
* The wall-clock reads (time.time()) that end up in the generation_time
  and timestamp fields of the transcript are modelled as two explicit
  Nat inputs of the prover.
* generate_proof returns the dictionary wrapped as a flattened
  copy together with a nested copy under the key proof;
  verify_proof immediately unwraps it (proof.get with the proof key),
  so both functions are modelled directly on the inner record.
-/

abbrev Bytes := List Nat

/-- ASCII byte sequence of a Lean string literal (all literals used here are ASCII). -/
def asciiOf (s : String) : Bytes := s.toList.map Char.toNat

/-! ## SHA-256 (hashlib.sha256), FIPS 180-4 -/

/-- Two to the 32, the word modulus of SHA-256. -/
def TwoPow32 : Nat := 4294967296

/-- The 64 SHA-256 round constants (fractional parts of the cube roots of the
first 64 primes); certified against that derivation in sha256K_spec below. -/
def K256 : List Nat :=
  [1116352408, 1899447441, 3049323471, 3921009573, 961987163, 1508970993, 2453635748,
   2870763221, 3624381080, 310598401, 607225278, 1426881987, 1925078388, 2162078206,
   2614888103, 3248222580, 3835390401, 4022224774, 264347078, 604807628, 770255983,
   1249150122, 1555081692, 1996064986, 2554220882, 2821834349, 2952996808, 3210313671,
   3336571891, 3584528711, 113926993, 338241895, 666307205, 773529912, 1294757372,
   1396182291, 1695183700, 1986661051, 2177026350, 2456956037, 2730485921, 2820302411,
   3259730800, 3345764771, 3516065817, 3600352804, 4094571909, 275423344, 430227734,
   506948616, 659060556, 883997877, 958139571, 1322822218, 1537002063, 1747873779,
   1955562222, 2024104815, 2227730452, 2361852424, 2428436474, 2756734187, 3204031479,
   3329325298]

/-- Working state of the SHA-256 compression function (registers a..h). -/
structure Sha2St where
  a : Nat
  b : Nat
  c : Nat
  d : Nat
  e : Nat
  f : Nat
  g : Nat
  h : Nat
deriving DecidableEq

/-- Initial hash value (fractional parts of square roots of the first 8 primes). -/
def sha256Init : Sha2St :=
  ⟨1779033703, 3144134277, 1013904242, 2773480762, 1359893119, 2600822924, 528734635, 1541459225⟩

/-- Right rotation of a 32-bit word. -/
def rotr (n w : Nat) : Nat := ((w >>> n) ||| (w <<< (32 - n))) % TwoPow32

/-- Number of zero padding bytes for a message of the given length. -/
def sha256PadLen (l : Nat) : Nat := (64 - (l + 9) % 64) % 64

/-- Big-endian 8-byte encoding of a 64-bit number. -/
def be64 (n : Nat) : Bytes :=
  [n / 2 ^ 56 % 256, n / 2 ^ 48 % 256, n / 2 ^ 40 % 256, n / 2 ^ 32 % 256,
   n / 2 ^ 24 % 256, n / 2 ^ 16 % 256, n / 2 ^ 8 % 256, n % 256]

/-- SHA-256 message padding: 0x80, zeros to 56 mod 64, then the bit length. -/
def sha256Pad (m : Bytes) : Bytes :=
  m ++ 128 :: List.replicate (sha256PadLen m.length) 0 ++ be64 (m.length * 8)

/-- Big-endian packing of bytes into 32-bit words. -/
def wordsOf : Bytes → List Nat
  | b1 :: b2 :: b3 :: b4 :: rest =>
      (b1 * 2 ^ 24 + b2 * 2 ^ 16 + b3 * 2 ^ 8 + b4) :: wordsOf rest
  | _ => []

/-- Splitting a byte list into 64-byte chunks (fuel-driven so that the kernel
can evaluate it; the fuel is always sufficient since each step consumes input). -/
def chunks64Core : Nat → Bytes → List Bytes
  | _, [] => []
  | 0, l => [l]
  | f + 1, l => l.take 64 :: chunks64Core f (l.drop 64)

/-- Splitting a byte list into 64-byte chunks. -/
def chunks64 (l : Bytes) : List Bytes := chunks64Core l.length l

/-- One message-schedule extension step. -/
def schedStep (w : List Nat) : List Nat :=
  let t := w.length
  let x15 := w.getD (t - 15) 0
  let x2 := w.getD (t - 2) 0
  let s0 := (rotr 7 x15) ^^^ (rotr 18 x15) ^^^ (x15 >>> 3)
  let s1 := (rotr 17 x2) ^^^ (rotr 19 x2) ^^^ (x2 >>> 10)
  w ++ [(w.getD (t - 16) 0 + s0 + w.getD (t - 7) 0 + s1) % TwoPow32]

/-- Extend the 16 block words to the 64 schedule words. -/
def schedule (w : List Nat) : Nat → List Nat
  | 0 => w
  | f + 1 => schedule (schedStep w) f

/-- One round of the SHA-256 compression function. -/
def sha256Round (st : Sha2St) (kt wt : Nat) : Sha2St :=
  let s1 := (rotr 6 st.e) ^^^ (rotr 11 st.e) ^^^ (rotr 25 st.e)
  let ch := (st.e &&& st.f) ^^^ ((TwoPow32 - 1 - st.e) &&& st.g)
  let t1 := (st.h + s1 + ch + kt + wt) % TwoPow32
  let s0 := (rotr 2 st.a) ^^^ (rotr 13 st.a) ^^^ (rotr 22 st.a)
  let mj := (st.a &&& st.b) ^^^ (st.a &&& st.c) ^^^ (st.b &&& st.c)
  let t2 := (s0 + mj) % TwoPow32
  ⟨(t1 + t2) % TwoPow32, st.a, st.b, st.c, (st.d + t1) % TwoPow32, st.e, st.f, st.g⟩

/-- Compression of one 64-byte block into the chaining state. -/
def sha256Block (H : Sha2St) (block : Bytes) : Sha2St :=
  let ws := schedule (wordsOf block) 48
  let fin := (List.range 64).foldl (fun st t => sha256Round st (K256.getD t 0) (ws.getD t 0)) H
  ⟨(H.a + fin.a) % TwoPow32, (H.b + fin.b) % TwoPow32, (H.c + fin.c) % TwoPow32,
   (H.d + fin.d) % TwoPow32, (H.e + fin.e) % TwoPow32, (H.f + fin.f) % TwoPow32,
   (H.g + fin.g) % TwoPow32, (H.h + fin.h) % TwoPow32⟩

/-- Big-endian 4-byte encoding of a 32-bit word. -/
def be32 (w : Nat) : Bytes := [w / 2 ^ 24 % 256, w / 2 ^ 16 % 256, w / 2 ^ 8 % 256, w % 256]

/-- SHA-256 digest (32 bytes) of a byte string; hashlib.sha256(m).digest(). -/
def sha256 (m : Bytes) : Bytes :=
  let fin := (chunks64 (sha256Pad m)).foldl sha256Block sha256Init
  be32 fin.a ++ be32 fin.b ++ be32 fin.c ++ be32 fin.d ++
  be32 fin.e ++ be32 fin.f ++ be32 fin.g ++ be32 fin.h

/-- Integer cube root by bisection (only used to certify the K256 constants). -/
def icbrtGo (n : Nat) : Nat → Nat → Nat → Nat
  | 0, lo, _ => lo
  | f + 1, lo, hi =>
    let mid := (lo + hi + 1) / 2
    if mid * mid * mid ≤ n then icbrtGo n f mid hi else icbrtGo n f lo (mid - 1)

/-- Integer cube root for arguments below 2 to the 105. -/
def icbrt (n : Nat) : Nat := icbrtGo n 64 0 34359738368

/-- Integer square root by bisection (only used to certify sha256Init). -/
def isqrtGo (n : Nat) : Nat → Nat → Nat → Nat
  | 0, lo, _ => lo
  | f + 1, lo, hi =>
    let mid := (lo + hi + 1) / 2
    if mid * mid ≤ n then isqrtGo n f mid hi else isqrtGo n f lo (mid - 1)

/-- Integer square root for arguments below 2 to the 70. -/
def isqrt (n : Nat) : Nat := isqrtGo n 64 0 34359738368

/-- The first 64 prime numbers, certified prime in first64Primes_prime. -/
def first64Primes : List Nat :=
  [2, 3, 5, 7, 11, 13, 17, 19, 23, 29, 31, 37, 41, 43, 47, 53, 59, 61, 67, 71,
   73, 79, 83, 89, 97, 101, 103, 107, 109, 113, 127, 131, 137, 139, 149, 151,
   157, 163, 167, 173, 179, 181, 191, 193, 197, 199, 211, 223, 227, 229, 233,
   239, 241, 251, 257, 263, 269, 271, 277, 281, 283, 293, 307, 311]

/-- Every listed number is prime. -/
theorem first64Primes_prime : ∀ p ∈ first64Primes, Nat.Prime p := by
  intro p hp
  fin_cases hp <;> norm_num

/-- The K256 constants are the first 32 fractional bits of the cube roots of
the first 64 primes, as FIPS 180-4 prescribes. -/
theorem sha256K_spec : K256 = first64Primes.map (fun p => icbrt (p * 2 ^ 96) % TwoPow32) := by
  decide

/-- The initial hash words are the first 32 fractional bits of the square
roots of the first 8 primes. -/
theorem sha256Init_spec :
    [sha256Init.a, sha256Init.b, sha256Init.c, sha256Init.d,
     sha256Init.e, sha256Init.f, sha256Init.g, sha256Init.h] =
      (first64Primes.take 8).map (fun p => isqrt (p * 2 ^ 64) % TwoPow32) := by
  decide

/-- SHA-256 digests are 32 bytes long. -/
theorem sha256_length (m : Bytes) : (sha256 m).length = 32 := by
  simp [sha256, be32]

/-- Every byte of a 4-byte word encoding is below 256. -/
theorem be32_lt {x w : Nat} (h : x ∈ be32 w) : x < 256 := by
  simp only [be32, List.mem_cons, List.not_mem_nil, or_false] at h
  rcases h with h | h | h | h <;> subst h <;> exact Nat.mod_lt _ (by norm_num)

/-- Every byte of a SHA-256 digest is below 256. -/
theorem sha256_lt_256 {x : Nat} {m : Bytes} (hx : x ∈ sha256 m) : x < 256 := by
  simp only [sha256, List.mem_append] at hx
  casesm* _ ∨ _ <;> exact be32_lt (by assumption)

/-! ## ASCII encodings of integers and digests

Python str(n) for a natural number, int(s), bytes.hex() and bytes.fromhex(s)
are modelled on ASCII byte lists. -/

/-- Decimal digits of n (fuel-driven; the fuel n + 1 always suffices). -/
def decBytesCore : Nat → Nat → Bytes
  | 0, _ => []
  | f + 1, n => if n < 10 then [48 + n] else decBytesCore f (n / 10) ++ [48 + n % 10]

/-- ASCII bytes of the decimal representation of n; str(n).encode(). -/
def decBytes (n : Nat) : Bytes := decBytesCore (n + 1) n

/-- Parse an ASCII decimal numeral; int(s) for a digits-only string, none
models the ValueError raised on malformed input. -/
def parseDec (b : Bytes) : Option Nat :=
  if b ≠ [] ∧ b.all (fun c => 48 ≤ c && c ≤ 57) then
    some (b.foldl (fun a c => a * 10 + (c - 48)) 0)
  else none

/-- Big-endian integer value of a byte string; int(b.hex(), 16). -/
def bytesToNat (b : Bytes) : Nat := b.foldl (fun a x => a * 256 + x) 0

/-- Lowercase hexadecimal digit for a value below 16. -/
def hexDigitChar (v : Nat) : Nat := if v < 10 then 48 + v else 87 + v

/-- ASCII bytes of the lowercase hex encoding; b.hex() / digest().hex(). -/
def hexBytes (b : Bytes) : Bytes :=
  b.flatMap (fun x => [hexDigitChar (x / 16), hexDigitChar (x % 16)])

/-- Value of one hexadecimal digit (upper or lower case accepted). -/
def hexVal (c : Nat) : Option Nat :=
  if 48 ≤ c ∧ c ≤ 57 then some (c - 48)
  else if 97 ≤ c ∧ c ≤ 102 then some (c - 87)
  else if 65 ≤ c ∧ c ≤ 70 then some (c - 55)
  else none

/-- Parse a hex string into bytes; none models the ValueError raised by
bytes.fromhex on malformed input. -/
def hexDecode : Bytes → Option Bytes
  | [] => some []
  | [_] => none
  | c1 :: c2 :: rest => do
      let h ← hexVal c1
      let l ← hexVal c2
      let r ← hexDecode rest
      pure ((h * 16 + l) :: r)

/-! ## CUDAFiniteField

The engine always instantiates the field at the Goldilocks prime (the
class default); the CUDA batch helpers are dead code on the proving and
verification paths modelled here, and the per-instance root-of-unity
cache is transparent (it stores exactly the value that is returned), so
all operations are pure functions of their arguments. -/

/-- The Goldilocks prime 2^64 - 2^32 + 1. -/
def GOLDILOCKS_PRIME : Nat := 18446744069414584321

/-- Fast modular exponentiation (fuel-driven square and multiply; any fuel
above the exponent gives pow(base, exp, m), Python three-argument pow). -/
def powModCore : Nat → Nat → Nat → Nat → Nat
  | 0, _, _, m => 1 % m
  | f + 1, b, e, m =>
    if e = 0 then 1 % m
    else
      let h := powModCore f (b * b % m) (e / 2) m
      if e % 2 = 1 then h * b % m else h

/-- Python pow(base, exp, m). -/
def powMod (b e m : Nat) : Nat := powModCore (e + 1) b e m

namespace CUDAFiniteField

/-- Field addition. -/
def add (a b : Nat) : Nat := (a + b) % GOLDILOCKS_PRIME

/-- Field subtraction (Python % on ints is always non-negative). -/
def sub (a b : Nat) : Nat := (((a : Int) - (b : Int)) % (GOLDILOCKS_PRIME : Int)).toNat

/-- Field multiplication. -/
def mul (a b : Nat) : Nat := a * b % GOLDILOCKS_PRIME

/-- Multiplicative inverse by Fermat; none models the ValueError on zero. -/
def inv (a : Nat) : Option Nat :=
  if a = 0 then none else some (powMod a (GOLDILOCKS_PRIME - 2) GOLDILOCKS_PRIME)

/-- Field exponentiation. -/
def pow (base exp : Nat) : Nat := powMod base exp GOLDILOCKS_PRIME

/-- get_primitive_root: g^((p-1)/order) for the hard-coded generator 7 when
order divides p - 1 and the sanity re-check passes, and the literal 2
otherwise (the fallback path of the source). -/
def get_primitive_root (order : Nat) : Nat :=
  let pm1 := GOLDILOCKS_PRIME - 1
  if pm1 % order = 0 then
    let root := pow 7 (pm1 / order)
    if pow root order = 1 then root else 2
  else 2

/-- get_evaluation_domain: the powers of the primitive size-th root when size
divides p - 1, otherwise the consecutive integers 1..size. -/
def get_evaluation_domain (size : Nat) : List Nat :=
  if (GOLDILOCKS_PRIME - 1) % size = 0 then
    let omega := get_primitive_root size
    (List.range size).map (fun i => pow omega i)
  else
    (List.range size).map (· + 1)

/-- Reversal of the low bits-many bits of i (accumulator form). -/
def bitRevGo : Nat → Nat → Nat → Nat
  | 0, _, acc => acc
  | b + 1, i, acc => bitRevGo b (i / 2) (acc * 2 + i % 2)

/-- Reversal of the low bits-many bits of i; for i below 2^bits this is the
int(bin(i)[2:].zfill(bits)[::-1], 2) of the source. -/
def bitRev (bits i : Nat) : Nat := bitRevGo bits i 0

/-- Swap of two positions of a list (the Python parallel assignment). -/
def swapL (l : List Nat) (i j : Nat) : List Nat :=
  (l.set i (l.getD j 0)).set j (l.getD i 0)

/-- The in-place bit-reverse permutation loop of fft. -/
def bitrevPermute (v : List Nat) : List Nat :=
  let n := v.length
  let logn := Nat.log2 n
  (List.range n).foldl
    (fun acc i => let r := bitRev logn i; if i < r then swapL acc i r else acc) v

/-- The inner butterfly loop of one block: j ranges over the half block, with
the twiddle factor accumulated multiplicatively as in the source. -/
def butterflyBlock (w halfLen : Nat) (a : List Nat) (start : Nat) : List Nat :=
  ((List.range halfLen).foldl
    (fun (st : List Nat × Nat) j =>
      let acc := st.1
      let wj := st.2
      let u := acc.getD (start + j) 0
      let v := mul (acc.getD (start + j + halfLen) 0) wj
      ((acc.set (start + j) (add u v)).set (start + j + halfLen) (sub u v), mul wj w))
    (a, 1)).1

/-- One pass of the iterative FFT at block size len. -/
def fftPass (omega n : Nat) (a : List Nat) (len : Nat) : List Nat :=
  let w := pow omega (n / len)
  ((List.range ((n + len - 1) / len)).map (· * len)).foldl (butterflyBlock w (len / 2)) a

/-- The while loop of passes with doubling block size (fuel-driven; the pass
count is logarithmic so fuel n always suffices). -/
def fftLoopGo (omega n : Nat) : Nat → List Nat → Nat → List Nat
  | 0, a, _ => a
  | f + 1, a, len => if len ≤ n then fftLoopGo omega n f (fftPass omega n a len) (len * 2) else a

/-- All butterfly passes of the iterative Cooley-Tukey FFT. -/
def fftPasses (a : List Nat) (omega n : Nat) : List Nat := fftLoopGo omega n n a 2

/-- fft: the number-theoretic transform of the source — bit-reverse
permutation, butterfly passes, and the 1/n scaling on the inverse
transform.  none models the assertion failure on a non-power-of-two
length and the ValueError from inverting zero. -/
def fft (values : List Nat) (inverse : Bool) : Option (List Nat) :=
  let n := values.length
  if n = 1 then some values
  else if n &&& (n - 1) ≠ 0 then none
  else
    let omega0 := get_primitive_root n
    match if inverse then inv omega0 else some omega0 with
    | none => none
    | some omega =>
      let transformed := fftPasses (bitrevPermute values) omega n
      if inverse then (inv n).map (fun ninv => transformed.map (fun x => mul x ninv))
      else some transformed

end CUDAFiniteField

/-! ## Polynomial (StarkPolynomial here; the source class name collides with Mathlib) -/

open CUDAFiniteField in
/-- Trailing-zero stripping of the StarkPolynomial constructor: pop the last
coefficient while more than one remains and it is zero. -/
def stripTrailingZeros (l : List Nat) : List Nat :=
  match l.reverse.dropWhile (fun x => x == 0) with
  | [] => if l.isEmpty then [] else [0]
  | r => r.reverse

/-- Dense univariate polynomial, coefficient 0 first. -/
structure StarkPolynomial where
  coefficients : List Nat
deriving DecidableEq

/-- The StarkPolynomial constructor (strips trailing zero coefficients). -/
def StarkPolynomial.make (c : List Nat) : StarkPolynomial := ⟨stripTrailingZeros c⟩

/-- degree(): length - 1 (as a Python int, so -1 for an empty list). -/
def StarkPolynomial.degree (p : StarkPolynomial) : Int := (p.coefficients.length : Int) - 1

/-- evaluate: Horner evaluation at a point. -/
def StarkPolynomial.evaluate (p : StarkPolynomial) (x : Nat) : Nat :=
  p.coefficients.foldr (fun c acc => CUDAFiniteField.add (CUDAFiniteField.mul acc x) c) 0

/-- evaluate_domain: pointwise evaluation over a domain. -/
def StarkPolynomial.evaluate_domain (p : StarkPolynomial) (domain : List Nat) : List Nat :=
  domain.map p.evaluate

/-- Denominator of the i-th Lagrange basis polynomial. -/
def lagrangeDenom (points : List (Nat × Nat)) (i xi : Nat) : Nat :=
  points.enum.foldl
    (fun acc jq => if jq.1 ≠ i then CUDAFiniteField.mul acc (CUDAFiniteField.sub xi jq.2.1) else acc) 1

/-- Multiply a coefficient list by (x - xj), given negXj = 0 - xj; this is the
inner convolution loop of _lagrange_direct (new[k] += c * negXj and
new[k+1] += c). -/
def mulXminus (negXj : Nat) (basis : List Nat) : List Nat :=
  List.zipWith CUDAFiniteField.add
    (basis.map (fun c => CUDAFiniteField.mul c negXj) ++ [0]) (0 :: basis)

/-- Build the scaled i-th Lagrange basis polynomial. -/
def lagrangeBasis (points : List (Nat × Nat)) (i coeff : Nat) : List Nat :=
  points.enum.foldl
    (fun basis jq =>
      if jq.1 ≠ i then mulXminus (CUDAFiniteField.sub 0 jq.2.1) basis else basis)
    [coeff]

/-- Accumulate a basis polynomial into the result coefficients (entries past
the result length are dropped, as in the source). -/
def addBasisInto (res basis : List Nat) : List Nat :=
  res.enum.map (fun kr =>
    if kr.1 < basis.length then CUDAFiniteField.add kr.2 (basis.getD kr.1 0) else kr.2)

/-- _lagrange_direct; none models the ValueError from inverting a zero
denominator (coincident x coordinates). -/
def lagrangeDirect (points : List (Nat × Nat)) : Option StarkPolynomial :=
  (points.enum.foldlM
    (fun (res : List Nat) (iq : Nat × (Nat × Nat)) => do
      let denom := lagrangeDenom points iq.1 iq.2.1
      let dinv ← CUDAFiniteField.inv denom
      let coeff := CUDAFiniteField.mul iq.2.2 dinv
      pure (addBasisInto res (lagrangeBasis points iq.1 coeff)))
    (List.replicate points.length 0)).map StarkPolynomial.make

/-- interpolate: Lagrange interpolation (the batch variant of the source
delegates to the direct one, so there is a single path). -/
def StarkPolynomial.interpolate (points : List (Nat × Nat)) : Option StarkPolynomial :=
  if points.length = 0 then some (StarkPolynomial.make [0])
  else if points.length = 1 then some (StarkPolynomial.make [(points.getD 0 (0, 0)).2])
  else lagrangeDirect points

/-- from_evaluations: inverse NTT on a power-of-two FFT-compatible length,
Lagrange interpolation otherwise.  (With an empty evaluation list Python
divides by zero in the modulus test; that branch is unreachable from the
prover, which always passes a non-empty trace.) -/
def StarkPolynomial.from_evaluations (evaluations domain : List Nat) : Option StarkPolynomial :=
  let n := evaluations.length
  if n &&& (n - 1) = 0 ∧ (GOLDILOCKS_PRIME - 1) % n = 0 then
    (CUDAFiniteField.fft evaluations true).map StarkPolynomial.make
  else
    StarkPolynomial.interpolate (domain.zip evaluations)

/-! ## MerkleTree -/

/-- One bottom-up combining step: hash adjacent pairs, duplicating the last
node as its own sibling when the level has odd width. -/
def combineLevel : List Bytes → List Bytes
  | [] => []
  | [x] => [sha256 (x ++ x)]
  | x :: y :: rest => sha256 (x ++ y) :: combineLevel rest

/-- All levels from the hashed leaves up to the root level (fuel-driven; each
step at least halves a level of width two or more, so fuel len suffices). -/
def buildLevelsCore : Nat → List Bytes → List (List Bytes)
  | 0, level => [level]
  | f + 1, level =>
    if level.length ≤ 1 then [level] else level :: buildLevelsCore f (combineLevel level)

/-- All levels from the hashed leaves up to the root level. -/
def buildLevels (level : List Bytes) : List (List Bytes) := buildLevelsCore level.length level

/-- Merkle tree: the stored leaves and the list of levels. -/
structure MerkleTree where
  leaves : List Bytes
  tree : List (List Bytes)
deriving DecidableEq

/-- _build_tree of the source. -/
def MerkleTree.build_tree (leaves : List Bytes) : List (List Bytes) :=
  if leaves = [] then [[sha256 (asciiOf "empty")]]
  else buildLevels (leaves.map sha256)

/-- The MerkleTree constructor: an empty (falsy) leaf list is replaced by the
single empty byte string before the tree is built. -/
def MerkleTree.make (leaves : List Bytes) : MerkleTree :=
  let ls := if leaves = [] then [([] : Bytes)] else leaves
  ⟨ls, MerkleTree.build_tree ls⟩

/-- root(): the first digest of the top level, with the hash of the literal
"empty" as fallback for a missing or empty top level. -/
def MerkleTree.root (t : MerkleTree) : Bytes :=
  match t.tree.getLast? with
  | some (d :: _) => d
  | _ => sha256 (asciiOf "empty")

/-- The level walk of prove: emit (sibling digest, is-left flag) when the
sibling index is in range, then halve the index. -/
def proveGo : List (List Bytes) → Nat → List (Bytes × Bool)
  | [], _ => []
  | level :: rest, idx =>
    (if idx ^^^ 1 < level.length then [(level.getD (idx ^^^ 1) [], idx % 2 == 0)] else []) ++
      proveGo rest (idx / 2)

/-- prove(index): walk all levels below the root. -/
def MerkleTree.prove (t : MerkleTree) (index : Nat) : List (Bytes × Bool) :=
  proveGo t.tree.dropLast index

/-- verify(leaf, index, proof, root): fold the sibling digests over the hashed
leaf and compare with the root (the index argument is unused in the source). -/
def MerkleTree.verify (leaf : Bytes) (_index : Nat) (proof : List (Bytes × Bool))
    (root : Bytes) : Bool :=
  (proof.foldl
    (fun current sp => if sp.2 then sha256 (current ++ sp.1) else sha256 (sp.1 ++ current))
    (sha256 leaf)) == root

/-! ## AIR -/

namespace AIR

/-- transition_constraint: next - (current + 1); zero iff satisfied.  The step
argument is unused in the source. -/
def transition_constraint (current next_val _step : Nat) : Nat :=
  CUDAFiniteField.sub next_val (CUDAFiniteField.add current 1)

/-- boundary_constraints: the first and last trace cells, constrained to
themselves. -/
def boundary_constraints (trace : List Nat) : List (Nat × Nat) :=
  (if trace.length > 0 then [(0, trace.getD 0 0)] else []) ++
    (if trace.length > 1 then [(trace.length - 1, trace.getD (trace.length - 1) 0)] else [])

/-- The transition-constraint loop of evaluate_all_constraints over adjacent
pairs (the loop index is the unused step argument). -/
def checkTransitions : List Nat → Bool
  | [] => true
  | [_] => true
  | a :: b :: rest => (transition_constraint a b 0 == 0) && checkTransitions (b :: rest)

/-- evaluate_all_constraints. -/
def evaluate_all_constraints (trace : List Nat) : Bool :=
  checkTransitions trace &&
    (boundary_constraints trace).all (fun bc => trace.getD bc.1 0 == bc.2)

end AIR

/-! ## STARK configuration and transcript model -/

/-- STARKConfig with the source defaults. -/
structure STARKConfig where
  trace_length : Nat := 256
  blowup_factor : Nat := 4
  num_queries : Nat := 80
  num_fri_layers : Nat := 10
  grinding_bits : Nat := 20
  security_bits : Nat := 512
deriving DecidableEq

/-- The default STARKConfig (all defaults). -/
def defaultConfig : STARKConfig := {}

/-- A per-layer opening inside a query response: the decimal string of the
opened value, of its sibling, and the hex-encoded Merkle path. -/
structure LayerData where
  value : Bytes
  sibling_value : Bytes
  merkle_proof : List (Bytes × Bool)
deriving DecidableEq

/-- One query response: the queried index and the per-layer openings. -/
structure QueryResponse where
  index : Nat
  layers : List LayerData
deriving DecidableEq

/-- The proof dictionary assembled by generate_proof.  Fields the verifier
reads through dict.get with no default are Option-valued so that forged
transcripts with the key absent are representable. -/
structure Transcript where
  version : Bytes
  protocol : Bytes
  trace_length : Nat
  extended_trace_length : Nat
  blowup_factor : Nat
  trace_merkle_root : Bytes
  fri_roots : List Bytes
  fri_challenges : List Bytes
  fri_final_polynomial : List Bytes
  query_indices : List Nat
  query_responses : List QueryResponse
  field_prime : Bytes
  security_level : Nat
  num_queries : Nat
  statement_hash : Option Bytes
  statement : Bytes
  public_output : Nat
  generation_time : Nat
  timestamp : Nat
  cuda_accelerated : Bool
  air_satisfied : Option Bool
  verified : Bool
deriving DecidableEq

/-- A value stored under a witness key: a Python int or str. -/
inductive ZkVal where
  | int (i : Int)
  | str (s : Bytes)
deriving DecidableEq

/-- The witness dictionary, restricted to the keys the engine reads. -/
structure Witness where
  secret_value : Option ZkVal := none
  age : Option ZkVal := none
  value : Option ZkVal := none
deriving DecidableEq

/-! ## FRI -/

/-- Every second element of a list, starting at the head (Python slice with
stride two). -/
def everySecond : List Nat → List Nat
  | [] => []
  | [a] => [a]
  | a :: _ :: rest => a :: everySecond rest

/-- The folding step of the FRI commit loop: split into even and odd indexed
coefficients (odd defaults to a single zero for constant polynomials), pad
to a common length, and combine with the challenge. -/
def foldPolyCoeffs (coeffs : List Nat) (challenge : Nat) : List Nat :=
  let even := everySecond coeffs
  let odd := if coeffs.length > 1 then everySecond (coeffs.drop 1) else [0]
  let maxLen := max even.length odd.length
  let evenP := even ++ List.replicate (maxLen - even.length) 0
  let oddP := odd ++ List.replicate (maxLen - odd.length) 0
  (List.range maxLen).map
    (fun i => CUDAFiniteField.add (evenP.getD i 0) (CUDAFiniteField.mul challenge (oddP.getD i 0)))

/-- The FRI commit loop.  The fuel is the remaining layer budget
(num_fri_layers - layer); the loop also stops when the domain is no larger
than twice the query count. -/
def friGo (q : Nat) : Nat → StarkPolynomial → List Nat →
    List MerkleTree × List Nat × List StarkPolynomial
  | 0, _, _ => ([], [], [])
  | fuel + 1, poly, domain =>
    if domain.length > q * 2 then
      let evaluations := poly.evaluate_domain domain
      let tree := MerkleTree.make (evaluations.map decBytes)
      let challenge := bytesToNat (sha256 (MerkleTree.root tree)) % GOLDILOCKS_PRIME
      let nextPoly := StarkPolynomial.make (foldPolyCoeffs poly.coefficients challenge)
      let nextDomain := (everySecond domain).map (fun x => CUDAFiniteField.mul x x)
      let rec0 := friGo q fuel nextPoly nextDomain
      (tree :: rec0.1, challenge :: rec0.2.1, nextPoly :: rec0.2.2)
    else ([], [], [])

namespace FRI

/-- commit: the Merkle trees, Fiat-Shamir challenges and polynomials of the
FRI layers (the polynomial list starts with the input polynomial). -/
def commit (cfg : STARKConfig) (polynomial : StarkPolynomial) (domain : List Nat) :
    List MerkleTree × List Nat × List StarkPolynomial :=
  let r := friGo cfg.num_queries cfg.num_fri_layers polynomial domain
  (r.1, r.2.1, polynomial :: r.2.2)

/-- The per-tree walk of the query phase: open the value, its sibling (the
value itself when the sibling index is out of range) and the Merkle path,
then halve the index.  Layers whose index is out of range are skipped. -/
def layersForGo : List MerkleTree → Nat → List LayerData
  | [], _ => []
  | t :: rest, idx =>
    (if idx < t.leaves.length then
      [{ value := t.leaves.getD idx [],
         sibling_value :=
           if idx ^^^ 1 < t.leaves.length then t.leaves.getD (idx ^^^ 1) []
           else t.leaves.getD idx [],
         merkle_proof := (t.prove idx).map (fun pr => (hexBytes pr.1, pr.2)) }]
     else []) ++ layersForGo rest (idx / 2)

/-- query: one response per query index.  (The challenges and polynomials
parameters of the source are unused there and omitted here.) -/
def query (trees : List MerkleTree) (query_indices : List Nat) : List QueryResponse :=
  query_indices.map (fun qi => { index := qi, layers := layersForGo trees qi })

end FRI

/-! ## CUDATrueSTARK prover and verifier -/

namespace CUDATrueSTARK

/-- The witness lookup chain witness.get with the constant default 42. -/
def extractSecretRaw (witness : Witness) : ZkVal :=
  (((witness.secret_value.orElse fun _ => witness.age).orElse fun _ => witness.value).getD
    (ZkVal.int 42))

/-- The trace loop: append the running value and step by the successor map. -/
def traceFrom : Nat → Nat → List Nat
  | _, 0 => []
  | current, n + 1 => current :: traceFrom (CUDAFiniteField.add current 1) n

/-- generate_execution_trace: derive the seed from the witness (hash string
values into the field, reduce integers modulo p) and iterate the increment
transition trace_length times.  The statement argument is unused in the
source. -/
def generate_execution_trace (_statement : Bytes) (witness : Witness)
    (cfg : STARKConfig) : List Nat :=
  let secret : Int :=
    match extractSecretRaw witness with
    | .int i => i
    | .str s => ((bytesToNat (sha256 s)) % GOLDILOCKS_PRIME : Nat)
  traceFrom ((secret % (GOLDILOCKS_PRIME : Int)).toNat) cfg.trace_length

/-- generate_proof.  The two Nat arguments are the wall-clock reads that land
in the generation_time and timestamp fields; none models the ValueError
raised when the trace violates the AIR constraints (and the arithmetic
exceptions of interpolation on non-FFT domains). -/
def generate_proof (cfg : STARKConfig) (statement : Bytes) (witness : Witness)
    (tGen tStamp : Nat) : Option Transcript :=
  let trace := generate_execution_trace statement witness cfg
  if ¬ AIR.evaluate_all_constraints trace then none
  else
    let n := trace.length
    let domain := CUDAFiniteField.get_evaluation_domain n
    match StarkPolynomial.from_evaluations trace domain with
    | none => none
    | some trace_poly =>
      let extended_size := n * cfg.blowup_factor
      let extended_domain0 := CUDAFiniteField.get_evaluation_domain extended_size
      let shift :=
        if (GOLDILOCKS_PRIME - 1) % (extended_size * 2) = 0 then
          CUDAFiniteField.get_primitive_root (extended_size * 2)
        else n + 1
      let extended_domain := extended_domain0.map (fun x => (x + shift) % GOLDILOCKS_PRIME)
      let extended_evaluations := trace_poly.evaluate_domain extended_domain
      let eval_bytes := extended_evaluations.map decBytes
      let trace_merkle := MerkleTree.make eval_bytes
      let composition_poly := trace_poly
      let friOut := FRI.commit cfg composition_poly extended_domain
      let fri_trees := friOut.1
      let fri_challenges := friOut.2.1
      let fri_polys := friOut.2.2
      let query_seed := hexBytes (sha256 (trace_merkle.root ++ asciiOf "queries"))
      let query_indices :=
        (List.range cfg.num_queries).map (fun i =>
          bytesToNat (sha256 (query_seed ++ [95] ++ decBytes i)) % extended_evaluations.length)
      let fri_queries := FRI.query fri_trees query_indices
      let statement_hash := bytesToNat (sha256 statement) % GOLDILOCKS_PRIME
      some
        { version := asciiOf "STARK-2.0"
          protocol := asciiOf "ZK-STARK (AIR + FRI)"
          trace_length := trace.length
          extended_trace_length := extended_evaluations.length
          blowup_factor := cfg.blowup_factor
          trace_merkle_root := hexBytes trace_merkle.root
          fri_roots := fri_trees.map (fun t => hexBytes t.root)
          fri_challenges := fri_challenges.map decBytes
          fri_final_polynomial :=
            match fri_polys.getLast? with
            | some pl => pl.coefficients.map decBytes
            | none => []
          query_indices := query_indices
          query_responses := fri_queries
          field_prime := decBytes GOLDILOCKS_PRIME
          security_level := 512
          num_queries := cfg.num_queries
          statement_hash := some (decBytes statement_hash)
          statement := statement
          public_output := trace.getLast?.getD 0
          generation_time := tGen
          timestamp := tStamp
          cuda_accelerated := false
          air_satisfied := some true
          verified := true }

/-- Hex decoding of every digest of a Merkle path (none on the first
malformed entry, as bytes.fromhex raises). -/
def decodeProofTuples : List (Bytes × Bool) → Option (List (Bytes × Bool))
  | [] => some []
  | hp :: rest => do
    let d ← hexDecode hp.1
    let r ← decodeProofTuples rest
    pure ((d, hp.2) :: r)

/-- One layer of the query-response check of verify_proof: Merkle
verification of the opened value against the layer root (skipped for an
empty path); false also models the exception raised by malformed hex. -/
def checkLayer (fri_roots : List Bytes) (query_idx layer_idx : Nat) (ld : LayerData) : Bool :=
  match decodeProofTuples ld.merkle_proof, hexDecode (fri_roots.getD layer_idx []) with
  | some proof_tuples, some root_bytes =>
    if proof_tuples ≠ [] ∧
        ¬ MerkleTree.verify ld.value (query_idx / 2 ^ layer_idx) proof_tuples root_bytes then
      false
    else true
  | _, _ => false

/-- The query-response loop of verify_proof; layers beyond the number of FRI
roots are not checked (the break in the source). -/
def checkQueries (fri_roots : List Bytes) (responses : List QueryResponse) : Bool :=
  responses.all (fun query =>
    ((query.layers.take fri_roots.length).enum).all
      (fun ld => checkLayer fri_roots query.index ld.1 ld.2))

/-- verify_proof: the sequential checks of the source; any modelled exception
yields false, as the surrounding try/except does. -/
def verify_proof (cfg : STARKConfig) (proof : Transcript) (statement : Bytes) : Bool :=
  let expected_hash := bytesToNat (sha256 statement) % GOLDILOCKS_PRIME
  match proof.statement_hash with
  | none => false
  | some sh =>
    match parseDec sh with
    | none => false
    | some shv =>
      if shv ≠ expected_hash then false
      else if proof.field_prime ≠ decBytes GOLDILOCKS_PRIME then false
      else if proof.trace_merkle_root.length ≠ 64 then false
      else
        match hexDecode proof.trace_merkle_root with
        | none => false
        | some _ =>
          if proof.fri_roots = [] then false
          else if proof.fri_roots.getD 0 [] ≠ proof.trace_merkle_root then false
          else if proof.query_responses.length < cfg.num_queries / 2 then false
          else if ¬ checkQueries proof.fri_roots proof.query_responses then false
          else if proof.fri_final_polynomial.length > cfg.num_queries then false
          else if ¬ proof.air_satisfied.getD false then false
          else true

end CUDATrueSTARK

/-! ## Claim C3: get_primitive_root on orders not dividing p - 1 -/

/-- C3: the claim says that for an order not dividing p - 1 (such as 7),
get_primitive_root must fail rather than return a value; the code instead
returns the literal 2, which is not even a 7-th root of unity.  This theorem
evaluates the code at the failing input order = 7. -/
theorem c3_primitive_root_fallback_returns_two :
    (GOLDILOCKS_PRIME - 1) % 7 ≠ 0 ∧
      CUDAFiniteField.get_primitive_root 7 = 2 ∧
      CUDAFiniteField.pow 2 7 ≠ 1 := by
  decide

/-! ## Claim C8: root of the tree built from an empty leaf list -/

set_option maxRecDepth 100000 in
/-- C8 counterexample: the constructor replaces an empty leaf list by the
single empty leaf, so the root is SHA-256 of the empty byte string hashed
as a leaf level, not the SHA-256 of the literal "empty" claimed by the
spec (that sentinel lives on the dead branch of _build_tree, which is
unreachable after the constructor replacement). -/
theorem c8_empty_root_counterexample :
    MerkleTree.root (MerkleTree.make []) ≠ sha256 (asciiOf "empty") := by
  decide

set_option maxRecDepth 100000 in
/-- C8 amended: a MerkleTree constructed from an empty leaf list has root
equal to the SHA-256 digest of the empty byte string (the digest of the
single empty leaf the constructor substitutes). -/
theorem c8_empty_root :
    MerkleTree.root (MerkleTree.make []) = sha256 ([] : Bytes) := by
  decide

/-! ## Claim C9: the AIR-satisfaction step is the prover-supplied flag -/

/-- C9: whenever the air_satisfied field of a proof dictionary is absent or
not truthy, verify_proof returns false, whatever the remaining fields
contain: the AIR-satisfaction step of verification reads only this
prover-supplied boolean. -/
theorem c9_air_flag_alone (cfg : STARKConfig) (t : Transcript) (s : Bytes)
    (h : t.air_satisfied.getD false = false) :
    CUDATrueSTARK.verify_proof cfg t s = false := by
  unfold CUDATrueSTARK.verify_proof
  simp only [h]
  repeat' split <;> try rfl

/-- C9 witness: a transcript with the air_satisfied key absent is rejected. -/
theorem c9_air_flag_alone_witness :
    CUDATrueSTARK.verify_proof defaultConfig
      { version := [], protocol := [], trace_length := 0, extended_trace_length := 0,
        blowup_factor := 0, trace_merkle_root := [], fri_roots := [], fri_challenges := [],
        fri_final_polynomial := [], query_indices := [], query_responses := [],
        field_prime := [], security_level := 0, num_queries := 0, statement_hash := none,
        statement := [], public_output := 0, generation_time := 0, timestamp := 0,
        cuda_accelerated := false, air_satisfied := none, verified := false } [] = false :=
  c9_air_flag_alone defaultConfig _ [] (by decide)

/-! ## Claim C2: FRI folding consistency is not checked by verify_proof -/

/-- Modelled from the spec: the FRI folding relation of section 4.5,
f(x^2) at the next layer equals (f(x) + f(-x))/2 plus the challenge times
(f(x) - f(-x))/(2x).  verify_proof contains no such check (its STEP 5 only
verifies Merkle openings), so the relation needed to state the claim is
taken from the specification text; none models the undefined divisions. -/
def specFoldedValue (v sib challenge x : Nat) : Option Nat :=
  match CUDAFiniteField.inv 2, CUDAFiniteField.inv (CUDAFiniteField.mul 2 x) with
  | some half, some inv2x =>
      some (CUDAFiniteField.add
        (CUDAFiniteField.mul (CUDAFiniteField.add v sib) half)
        (CUDAFiniteField.mul challenge (CUDAFiniteField.mul (CUDAFiniteField.sub v sib) inv2x)))
  | _, _ => none

/-- A configuration with a small query budget (verify_proof only reads
num_queries from it). -/
def c2Config : STARKConfig :=
  { trace_length := 4, blowup_factor := 4, num_queries := 2, num_fri_layers := 3 }

/-- A 64-character all-zero hex root. -/
def c2Root : Bytes := hexBytes (List.replicate 32 0)

/-- A forged transcript whose single query opens the value 0 with sibling 0 at
layer 0 and the value 5 at layer 1: every possible folded value of (0, 0)
is 0, so the folding relation is violated at layer 1, whatever the
challenge and the domain point. -/
def c2Transcript : Transcript :=
  { version := asciiOf "STARK-2.0", protocol := asciiOf "ZK-STARK (AIR + FRI)",
    trace_length := 4, extended_trace_length := 16, blowup_factor := 4,
    trace_merkle_root := c2Root,
    fri_roots := [c2Root, c2Root],
    fri_challenges := [asciiOf "1"],
    fri_final_polynomial := [],
    query_indices := [0],
    query_responses :=
      [{ index := 0,
         layers :=
           [{ value := asciiOf "0", sibling_value := asciiOf "0", merkle_proof := [] },
            { value := asciiOf "5", sibling_value := asciiOf "5", merkle_proof := [] }] }],
    field_prime := decBytes GOLDILOCKS_PRIME,
    security_level := 512, num_queries := 2,
    statement_hash := some (decBytes (bytesToNat (sha256 (asciiOf "x")) % GOLDILOCKS_PRIME)),
    statement := asciiOf "x", public_output := 0, generation_time := 0, timestamp := 0,
    cuda_accelerated := false, air_satisfied := some true, verified := true }

set_option maxRecDepth 200000 in
/-- C2: the claim says verify_proof returns false on every transcript in which
an opened layer pair violates the folding relation; this transcript opens
(0, 0) at layer 0 of its only query while layer 1 opens 5, which no
challenge and no domain point can fold to (first conjunct), yet
verify_proof accepts: the source never performs a folding-consistency
check. -/
theorem c2_folding_violation_accepted :
    (∀ challenge x, specFoldedValue 0 0 challenge x ≠ some 5) ∧
      parseDec (asciiOf "0") = some 0 ∧ parseDec (asciiOf "5") = some 5 ∧
      CUDATrueSTARK.verify_proof c2Config c2Transcript (asciiOf "x") = true := by
  refine ⟨?_, by decide, by decide, by decide⟩
  intro challenge x h
  revert h
  unfold specFoldedValue
  split
  · simp [CUDAFiniteField.add, CUDAFiniteField.mul, CUDAFiniteField.sub]
  · simp

/-! ## Claim C7: the final-polynomial check tests length, not degree -/

/-- A configuration with query budget q = 2 for exercising the final
polynomial check. -/
def c7Config : STARKConfig :=
  { trace_length := 4, blowup_factor := 4, num_queries := 2, num_fri_layers := 3 }

/-- A 64-character all-zero hex root. -/
def c7Root : Bytes := hexBytes (List.replicate 32 0)

/-- A transcript passing every check of verify_proof other than (possibly) the
final-polynomial one; its final polynomial slot is filled per theorem. -/
def c7Transcript (finalPoly : List Bytes) : Transcript :=
  { version := asciiOf "STARK-2.0", protocol := asciiOf "ZK-STARK (AIR + FRI)",
    trace_length := 4, extended_trace_length := 16, blowup_factor := 4,
    trace_merkle_root := c7Root,
    fri_roots := [c7Root],
    fri_challenges := [],
    fri_final_polynomial := finalPoly,
    query_indices := [0],
    query_responses :=
      [{ index := 0,
         layers := [{ value := asciiOf "0", sibling_value := asciiOf "0", merkle_proof := [] }] }],
    field_prime := decBytes GOLDILOCKS_PRIME,
    security_level := 512, num_queries := 2,
    statement_hash := some (decBytes (bytesToNat (sha256 (asciiOf "y")) % GOLDILOCKS_PRIME)),
    statement := asciiOf "y", public_output := 0, generation_time := 0, timestamp := 0,
    cuda_accelerated := false, air_satisfied := some true, verified := true }

set_option maxRecDepth 200000 in
/-- C7 counterexample: a canonical final polynomial of degree exactly
q = num_queries (q + 1 coefficients, leading coefficient nonzero) is
rejected by verify_proof even though the claim says degree at most q is
not rejected on this ground; the same transcript with the final
polynomial truncated below q + 1 coefficients is accepted, so the final
polynomial check is what rejects it.  The source compares the coefficient
count (degree + 1), not the degree, against q. -/
theorem c7_degree_q_rejected :
    (c7Transcript [asciiOf "1", asciiOf "2", asciiOf "3"]).fri_final_polynomial.length =
        c7Config.num_queries + 1 ∧
      CUDATrueSTARK.verify_proof c7Config
          (c7Transcript [asciiOf "1", asciiOf "2", asciiOf "3"]) (asciiOf "y") = false ∧
      CUDATrueSTARK.verify_proof c7Config
          (c7Transcript [asciiOf "1", asciiOf "2"]) (asciiOf "y") = true := by
  refine ⟨by decide, by decide, by decide⟩

set_option maxHeartbeats 2000000 in
/-- C7 amended: the check rejects exactly the transcripts whose final
polynomial has more than q = num_queries coefficients — equivalently
degree at least q for a canonical coefficient list: any longer final
polynomial forces rejection, and the verdict never depends on final
polynomials of at most q coefficients. -/
theorem c7_final_poly_length_check (cfg : STARKConfig) (t : Transcript) (s : Bytes) :
    (t.fri_final_polynomial.length > cfg.num_queries →
        CUDATrueSTARK.verify_proof cfg t s = false) ∧
      (∀ l1 l2 : List Bytes, l1.length ≤ cfg.num_queries → l2.length ≤ cfg.num_queries →
        CUDATrueSTARK.verify_proof cfg { t with fri_final_polynomial := l1 } s =
          CUDATrueSTARK.verify_proof cfg { t with fri_final_polynomial := l2 } s) := by
  obtain ⟨v, pr, tl, etl, bf, tmr, fr, fc, ffp, qi, qr, fp, sl, nq, sh, st, po, gt, tsp, ca, ar, vf⟩ := t
  constructor
  · intro h
    dsimp only at h
    unfold CUDATrueSTARK.verify_proof
    dsimp only
    repeat' split <;> try rfl
  · intro l1 l2 h1 h2
    unfold CUDATrueSTARK.verify_proof
    dsimp only
    repeat' split <;> try (with_reducible rfl)
    all_goals omega

/-- C7 witness: the rejection direction of the amended theorem at a concrete
transcript with 3 final coefficients against the budget q = 2. -/
theorem c7_final_poly_length_check_witness :
    CUDATrueSTARK.verify_proof c7Config
        (c7Transcript [asciiOf "7", asciiOf "7", asciiOf "7"]) (asciiOf "y") = false :=
  (c7_final_poly_length_check c7Config
    (c7Transcript [asciiOf "7", asciiOf "7", asciiOf "7"]) (asciiOf "y")).1 (by decide)

/-! ## Merkle round trip machinery (claims C5 and C1) -/

/-- Index with the low bit flipped, for even indices: the sibling on the right. -/
theorem xor_one_of_even {i : Nat} (h : i % 2 = 0) : i ^^^ 1 = i + 1 := by
  apply Nat.eq_of_testBit_eq
  intro n
  cases n with
  | zero =>
      simp only [Nat.testBit_xor, Nat.testBit_zero, h]
      norm_num
  | succ m =>
      rw [Nat.testBit_xor, Nat.testBit_succ 1]
      simp only [Nat.reduceDiv, Nat.zero_testBit, Bool.xor_false]
      rw [Nat.testBit_succ, Nat.testBit_succ]
      congr 1
      omega

/-- Index with the low bit flipped, for odd indices: the sibling on the left. -/
theorem xor_one_of_odd {i : Nat} (h : i % 2 = 1) : i ^^^ 1 = i - 1 := by
  apply Nat.eq_of_testBit_eq
  intro n
  cases n with
  | zero =>
      simp only [Nat.testBit_xor, Nat.testBit_zero, h]
      norm_num
      omega
  | succ m =>
      rw [Nat.testBit_xor, Nat.testBit_succ 1]
      simp only [Nat.reduceDiv, Nat.zero_testBit, Bool.xor_false]
      rw [Nat.testBit_succ, Nat.testBit_succ]
      congr 1
      omega

/-- Combining a level halves its width, rounding up. -/
theorem combineLevel_length (l : List Bytes) : (combineLevel l).length = (l.length + 1) / 2 := by
  match l with
  | [] => simp [combineLevel]
  | [x] => simp [combineLevel]
  | x :: y :: rest =>
      simp only [combineLevel, List.length_cons, combineLevel_length rest]
      omega

/-- Entry j of a combined level is the hash of the pair at 2j, 2j+1. -/
theorem combineLevel_getD (l : List Bytes) (j : Nat) (h : 2 * j + 1 < l.length) :
    (combineLevel l).getD j [] = sha256 (l.getD (2 * j) [] ++ l.getD (2 * j + 1) []) := by
  match l, j with
  | [], j => simp at h
  | [x], j => simp at h
  | x :: y :: rest, 0 => rfl
  | x :: y :: rest, j + 1 =>
      have hr : 2 * j + 1 < rest.length := by
        simp only [List.length_cons] at h
        omega
      have g0 : (combineLevel (x :: y :: rest)).getD (j + 1) [] =
          (combineLevel rest).getD j [] := by
        simp [combineLevel]
      have g1 : (x :: y :: rest).getD (2 * (j + 1)) [] = rest.getD (2 * j) [] := by
        have e : 2 * (j + 1) = 2 * j + 1 + 1 := by omega
        rw [e]
        simp [List.getD_cons_succ]
      have g2 : (x :: y :: rest).getD (2 * (j + 1) + 1) [] = rest.getD (2 * j + 1) [] := by
        have e : 2 * (j + 1) + 1 = 2 * j + 1 + 1 + 1 := by omega
        rw [e]
        simp [List.getD_cons_succ]
      rw [g0, combineLevel_getD rest j hr, g1, g2]

/-- The level builder never returns an empty list of levels. -/
theorem buildLevelsCore_ne_nil (f : Nat) (lvl : List Bytes) : buildLevelsCore f lvl ≠ [] := by
  cases f with
  | zero => simp [buildLevelsCore]
  | succ f =>
      unfold buildLevelsCore
      split <;> simp

/-- The fold of verify over a Merkle path. -/
def merkleFold (start : Bytes) (proof : List (Bytes × Bool)) : Bytes :=
  proof.foldl
    (fun current sp => if sp.2 then sha256 (current ++ sp.1) else sha256 (sp.1 ++ current)) start

/-- verify is the path fold compared against the root. -/
theorem verify_eq_merkleFold (leaf : Bytes) (i : Nat) (proof : List (Bytes × Bool))
    (root : Bytes) :
    MerkleTree.verify leaf i proof root = (merkleFold (sha256 leaf) proof == root) := rfl

/-- The root only depends on the level list. -/
theorem root_ignores_leaves (a b : List Bytes) (t : List (List Bytes)) :
    MerkleTree.root ⟨a, t⟩ = MerkleTree.root ⟨b, t⟩ := rfl

/-- Fold of the proof from a level equals the root above that level, for
levels of power-of-two width. -/
theorem merkleFold_proveGo (k : Nat) :
    ∀ (f : Nat) (lvl : List Bytes) (i : Nat),
      lvl.length = 2 ^ k → k ≤ f → i < lvl.length →
      merkleFold (lvl.getD i []) (proveGo (buildLevelsCore f lvl).dropLast i) =
        MerkleTree.root ⟨[], buildLevelsCore f lvl⟩ := by
  induction k with
  | zero =>
      intro f lvl i hl hf hi
      have hone : lvl.length = 1 := by simpa using hl
      have hb : buildLevelsCore f lvl = [lvl] := by
        cases f with
        | zero => rfl
        | succ f => rw [buildLevelsCore, if_pos (by omega)]
      rw [hb]
      obtain ⟨x, hx⟩ : ∃ x, lvl = [x] := by
        cases lvl with
        | nil => simp at hone
        | cons x xs =>
            cases xs with
            | nil => exact ⟨x, rfl⟩
            | cons y ys => simp at hone
      subst hx
      have : i = 0 := by omega
      subst this
      rfl
  | succ k ih =>
      intro f lvl i hl hf hi
      obtain ⟨f, rfl⟩ : ∃ g, f = g + 1 := ⟨f - 1, by omega⟩
      have hpow : (2 : Nat) ^ (k + 1) = 2 * 2 ^ k := by rw [Nat.pow_succ]; ring
      have hlen2 : ¬ lvl.length ≤ 1 := by
        rw [hl, hpow]
        have := Nat.pos_pow_of_pos k (show 0 < 2 by omega)
        omega
      have hstep : buildLevelsCore (f + 1) lvl = lvl :: buildLevelsCore f (combineLevel lvl) := by
        rw [buildLevelsCore, if_neg hlen2]
      rw [hstep]
      have hnl : (combineLevel lvl).length = 2 ^ k := by
        rw [combineLevel_length, hl, hpow]; omega
      obtain ⟨b, bs, hbs⟩ : ∃ b bs, buildLevelsCore f (combineLevel lvl) = b :: bs := by
        cases h : buildLevelsCore f (combineLevel lvl) with
        | nil => exact absurd h (buildLevelsCore_ne_nil f _)
        | cons b bs => exact ⟨b, bs, rfl⟩
      have hsib : i ^^^ 1 < lvl.length := by
        rcases Nat.mod_two_eq_zero_or_one i with h2 | h2
        · rw [xor_one_of_even h2, hl, hpow]
          rw [hl, hpow] at hi
          omega
        · rw [xor_one_of_odd h2]
          omega
      have hproof :
          proveGo (lvl :: buildLevelsCore f (combineLevel lvl)).dropLast i =
            (lvl.getD (i ^^^ 1) [], (i % 2 == 0)) ::
              proveGo (buildLevelsCore f (combineLevel lvl)).dropLast (i / 2) := by
        rw [hbs, List.dropLast_cons₂, ← hbs]
        rw [proveGo, if_pos hsib]
        simp
      rw [hproof]
      have hfold :
          merkleFold (lvl.getD i [])
              ((lvl.getD (i ^^^ 1) [], (i % 2 == 0)) ::
                proveGo (buildLevelsCore f (combineLevel lvl)).dropLast (i / 2)) =
            merkleFold ((combineLevel lvl).getD (i / 2) [])
              (proveGo (buildLevelsCore f (combineLevel lvl)).dropLast (i / 2)) := by
        unfold merkleFold
        rw [List.foldl_cons]
        congr 1
        rcases Nat.mod_two_eq_zero_or_one i with h2 | h2
        · have hflag : (i % 2 == 0) = true := by simp [h2]
          rw [hflag, if_pos rfl]
          rw [combineLevel_getD lvl (i / 2) (by omega)]
          have e1 : 2 * (i / 2) = i := by omega
          rw [e1]
          dsimp only
          rw [xor_one_of_even h2]
        · have hflag : (i % 2 == 0) = false := by simp [h2]
          rw [hflag, if_neg (by simp)]
          rw [combineLevel_getD lvl (i / 2) (by omega)]
          have e1 : 2 * (i / 2) = i - 1 := by omega
          rw [e1]
          have e2 : i - 1 + 1 = i := by omega
          rw [e2]
          dsimp only
          rw [xor_one_of_odd h2]
      rw [hfold]
      rw [ih f (combineLevel lvl) (i / 2) hnl (by omega)
        (by rw [hnl]; rw [hl, hpow] at hi; omega)]
      rw [hbs]
      unfold MerkleTree.root
      rw [List.getLast?_cons_cons]

/-- getD through a map, for indices in range. -/
theorem getD_map_of_lt (f : Bytes → Bytes) (l : List Bytes) (i : Nat) (d d2 : Bytes)
    (h : i < l.length) : (l.map f).getD i d2 = f (l.getD i d) := by
  rw [List.getD_eq_getElem?_getD, List.getD_eq_getElem?_getD]
  rw [List.getElem?_map]
  rw [List.getElem?_eq_getElem h]
  simp

/-! ## Claim C5: Merkle inclusion round trip -/

/-- Shared helper: Merkle round trip for power-of-two leaf counts. -/
theorem merkle_roundtrip_pow2 (L : List Bytes) (k i : Nat)
    (hL : L.length = 2 ^ k) (hi : i < L.length) :
    MerkleTree.verify (L.getD i []) i ((MerkleTree.make L).prove i)
      ((MerkleTree.make L).root) = true := by
  have hpos : 0 < L.length := by
    rw [hL]; exact Nat.pos_pow_of_pos k (by omega)
  have hne : L ≠ [] := by
    intro h
    rw [h] at hpos
    simp at hpos
  have hmk : MerkleTree.make L = ⟨L, buildLevels (L.map sha256)⟩ := by
    simp only [MerkleTree.make, MerkleTree.build_tree, if_neg hne]
  rw [hmk]
  rw [verify_eq_merkleFold]
  have hmap : sha256 (L.getD i []) = (L.map sha256).getD i [] :=
    (getD_map_of_lt sha256 L i [] [] hi).symm
  rw [hmap]
  unfold MerkleTree.prove
  unfold buildLevels
  have hfold := merkleFold_proveGo k (L.map sha256).length (L.map sha256) i
    (by simp [hL]) (by rw [List.length_map, hL]; exact le_of_lt (Nat.lt_two_pow k))
    (by rw [List.length_map]; exact hi)
  simp only at hfold ⊢
  rw [hfold]
  rw [root_ignores_leaves [] L]
  simp

/-- C5 amended: for every non-empty list of leaves whose length is a power of
two (so that no tree level has odd width) and every index in range,
verify accepts the proof produced by prove against the root. -/
theorem c5_merkle_roundtrip_pow2 (L : List Bytes) (k i : Nat)
    (hL : L.length = 2 ^ k) (hi : i < L.length) :
    MerkleTree.verify (L.getD i []) i ((MerkleTree.make L).prove i)
      ((MerkleTree.make L).root) = true :=
  merkle_roundtrip_pow2 L k i hL hi

/-- C5 witness: the round trip at the concrete two-leaf tree and index 0. -/
theorem c5_merkle_roundtrip_pow2_witness :
    ([asciiOf "a", asciiOf "b"] : List Bytes).length = 2 ^ 1 ∧
      MerkleTree.verify (([asciiOf "a", asciiOf "b"] : List Bytes).getD 0 []) 0
        ((MerkleTree.make [asciiOf "a", asciiOf "b"]).prove 0)
        ((MerkleTree.make [asciiOf "a", asciiOf "b"]).root) = true :=
  ⟨by decide, c5_merkle_roundtrip_pow2 [asciiOf "a", asciiOf "b"] 1 0 (by decide) (by decide)⟩

set_option maxRecDepth 400000 in
/-- C5 counterexample: with three leaves the last leaf is duplicated as its
own sibling when level 0 is combined, but prove(2) emits no entry for the
missing sibling while the parent is the hash of the duplicated pair, so
the claimed round trip fails at index 2. -/
theorem c5_merkle_roundtrip_odd_counterexample :
    MerkleTree.verify (([asciiOf "a", asciiOf "b", asciiOf "c"] : List Bytes).getD 2 []) 2
      ((MerkleTree.make [asciiOf "a", asciiOf "b", asciiOf "c"]).prove 2)
      ((MerkleTree.make [asciiOf "a", asciiOf "b", asciiOf "c"]).root) = false := by
  decide

/-! ## Claim C4: prover determinism -/

/-- A transcript with its two wall-clock fields cleared. -/
def stripTime (t : Transcript) : Transcript := { t with generation_time := 0, timestamp := 0 }

/-- A tiny configuration on which the full prover pipeline is kernel
computable. -/
def c4Config : STARKConfig :=
  { trace_length := 1, blowup_factor := 1, num_queries := 0, num_fri_layers := 1 }

set_option maxRecDepth 400000 in
/-- C4 counterexample: two invocations of generate_proof at different
wall-clock instants differ in the timestamp field, so the transcripts are
not equal in every field as the claim demands. -/
theorem c4_determinism_counterexample :
    CUDATrueSTARK.generate_proof c4Config (asciiOf "s") {} 0 0 ≠
      CUDATrueSTARK.generate_proof c4Config (asciiOf "s") {} 0 1 := by
  intro h
  have h2 := congrArg (Option.map (fun t => t.timestamp)) h
  revert h2
  decide

/-- C4 amended: for a fixed statement, witness and configuration, any two
invocations of generate_proof produce transcripts equal in every field
except the wall-clock fields generation_time and timestamp (equivalently,
equal after clearing those two fields). -/
theorem c4_determinism_modulo_time (cfg : STARKConfig) (s : Bytes) (w : Witness)
    (tg ts tg2 ts2 : Nat) :
    (CUDATrueSTARK.generate_proof cfg s w tg ts).map stripTime =
      (CUDATrueSTARK.generate_proof cfg s w tg2 ts2).map stripTime := by
  unfold CUDATrueSTARK.generate_proof
  dsimp only
  repeat' split <;> try rfl

/-! ## Claim C10: witnesses without the recognized keys share the trace -/

/-- C10: any two witness dictionaries lacking secret_value, age and value are
seeded by the constant default 42, so they generate the identical
execution trace, and generate_proof emits the same trace_merkle_root for
both (at any wall-clock instants). -/
theorem c10_default_seed_same_trace (w1 w2 : Witness) (cfg : STARKConfig) (s : Bytes)
    (tg ts tg2 ts2 : Nat)
    (h1a : w1.secret_value = none) (h1b : w1.age = none) (h1c : w1.value = none)
    (h2a : w2.secret_value = none) (h2b : w2.age = none) (h2c : w2.value = none) :
    CUDATrueSTARK.generate_execution_trace s w1 cfg =
        CUDATrueSTARK.generate_execution_trace s w2 cfg ∧
      (CUDATrueSTARK.generate_proof cfg s w1 tg ts).map (fun t => t.trace_merkle_root) =
        (CUDATrueSTARK.generate_proof cfg s w2 tg2 ts2).map (fun t => t.trace_merkle_root) := by
  have htr : CUDATrueSTARK.generate_execution_trace s w1 cfg =
      CUDATrueSTARK.generate_execution_trace s w2 cfg := by
    unfold CUDATrueSTARK.generate_execution_trace CUDATrueSTARK.extractSecretRaw
    rw [h1a, h1b, h1c, h2a, h2b, h2c]
  refine ⟨htr, ?_⟩
  unfold CUDATrueSTARK.generate_proof
  rw [htr]
  dsimp only
  repeat' split <;> try rfl

/-- C10 witness: the statement instantiated at two concrete empty witnesses
under the tiny configuration. -/
theorem c10_default_seed_same_trace_witness :
    CUDATrueSTARK.generate_execution_trace (asciiOf "s") {} c4Config =
        CUDATrueSTARK.generate_execution_trace (asciiOf "s") {} c4Config ∧
      (CUDATrueSTARK.generate_proof c4Config (asciiOf "s") {} 0 0).map
          (fun t => t.trace_merkle_root) =
        (CUDATrueSTARK.generate_proof c4Config (asciiOf "s") {} 1 1).map
          (fun t => t.trace_merkle_root) :=
  c10_default_seed_same_trace {} {} c4Config (asciiOf "s") 0 0 1 1
    (by decide) (by decide) (by decide) (by decide) (by decide) (by decide)

/-! ## Support lemmas for the completeness theorem (claim C1) -/

/-- The decimal encoder is exact: non-empty, digits only, and parsing back
folds to the encoded number. -/
theorem decBytesCore_spec (f : Nat) :
    ∀ n, n < f →
      decBytesCore f n ≠ [] ∧ (∀ c ∈ decBytesCore f n, 48 ≤ c ∧ c ≤ 57) ∧
        (decBytesCore f n).foldl (fun a c => a * 10 + (c - 48)) 0 = n := by
  induction f with
  | zero => intro n hn; omega
  | succ f ih =>
      intro n hn
      by_cases h10 : n < 10
      · refine ⟨by simp [decBytesCore, h10], ?_, ?_⟩
        · intro c hc
          simp [decBytesCore, h10] at hc
          omega
        · simp [decBytesCore, h10]
      · have hdiv : n / 10 < f := by
          have h1 : n / 10 < n := Nat.div_lt_self (by omega) (by omega)
          omega
        obtain ⟨ih1, ih2, ih3⟩ := ih (n / 10) hdiv
        refine ⟨by simp [decBytesCore, h10], ?_, ?_⟩
        · intro c hc
          simp only [decBytesCore, if_neg h10, List.mem_append, List.mem_cons,
            List.not_mem_nil, or_false] at hc
          rcases hc with hc | hc
          · exact ih2 c hc
          · omega
        · simp only [decBytesCore, if_neg h10, List.foldl_append, ih3, List.foldl_cons,
            List.foldl_nil]
          omega

/-- int(str(n)) round trip. -/
theorem parseDec_decBytes (n : Nat) : parseDec (decBytes n) = some n := by
  obtain ⟨h1, h2, h3⟩ := decBytesCore_spec (n + 1) n (by omega)
  unfold parseDec decBytes
  rw [if_pos]
  · rw [h3]
  · refine ⟨h1, ?_⟩
    rw [List.all_eq_true]
    intro c hc
    have := h2 c hc
    simp only [Bool.and_eq_true, decide_eq_true_eq]
    omega

/-- Decoding one hex digit emitted by the encoder. -/
theorem hexVal_hexDigitChar (v : Nat) (h : v < 16) : hexVal (hexDigitChar v) = some v := by
  unfold hexVal hexDigitChar
  by_cases h10 : v < 10
  · rw [if_pos h10, if_pos (by omega)]
    simp
  · rw [if_neg h10, if_neg (by omega), if_pos (by omega)]
    congr 1
    omega

/-- bytes.fromhex(b.hex()) round trip for genuine byte lists. -/
theorem hexDecode_hexBytes (b : Bytes) (h : ∀ x ∈ b, x < 256) :
    hexDecode (hexBytes b) = some b := by
  induction b with
  | nil => rfl
  | cons x rest ih =>
      have hx : x < 256 := h x (by simp)
      have hrest : ∀ y ∈ rest, y < 256 := fun y hy => h y (by simp [hy])
      have hsplit : hexBytes (x :: rest) =
          hexDigitChar (x / 16) :: hexDigitChar (x % 16) :: hexBytes rest := rfl
      rw [hsplit, hexDecode]
      rw [hexVal_hexDigitChar (x / 16) (by omega), hexVal_hexDigitChar (x % 16) (by omega),
        ih hrest]
      have hxv : x / 16 * 16 + x % 16 = x := by omega
      simp [hxv]

/-- The hex encoding doubles the length. -/
theorem hexBytes_length (b : Bytes) : (hexBytes b).length = 2 * b.length := by
  induction b with
  | nil => rfl
  | cons x rest ih => simp [hexBytes] at ih ⊢; omega

/-- getD stays inside the list for indices in range. -/
theorem getD_mem_of_lt {α : Type} {l : List α} {i : Nat} (d : α) (h : i < l.length) :
    l.getD i d ∈ l := by
  rw [List.getD_eq_getElem?_getD, List.getElem?_eq_getElem h]
  exact List.getElem_mem h

/-- Combining digest levels yields digests. -/
theorem combineLevel_digests : ∀ lvl : List Bytes, ∀ d ∈ combineLevel lvl, ∃ m, d = sha256 m
  | [] => by simp [combineLevel]
  | [x] => by
      intro d hd
      simp [combineLevel] at hd
      exact ⟨_, hd⟩
  | x :: y :: rest => by
      intro d hd
      simp only [combineLevel, List.mem_cons] at hd
      rcases hd with hd | hd
      · exact ⟨_, hd⟩
      · exact combineLevel_digests rest d hd

/-- Every entry of every level built over digests is a digest. -/
theorem buildLevelsCore_digests (f : Nat) :
    ∀ lvl : List Bytes, (∀ d ∈ lvl, ∃ m, d = sha256 m) →
      ∀ lv ∈ buildLevelsCore f lvl, ∀ d ∈ lv, ∃ m, d = sha256 m := by
  induction f with
  | zero =>
      intro lvl hl lv hlv d hd
      simp [buildLevelsCore] at hlv
      subst hlv
      exact hl d hd
  | succ f ih =>
      intro lvl hl lv hlv d hd
      rw [buildLevelsCore] at hlv
      split at hlv
      · simp at hlv
        subst hlv
        exact hl d hd
      · simp only [List.mem_cons] at hlv
        rcases hlv with hlv | hlv
        · subst hlv
          exact hl d hd
        · exact ih (combineLevel lvl) (combineLevel_digests lvl) lv hlv d hd

/-- All bytes of a digest are bytes. -/
theorem digest_bytes_lt {d : Bytes} (h : ∃ m, d = sha256 m) : ∀ x ∈ d, x < 256 := by
  obtain ⟨m, rfl⟩ := h
  intro x hx
  exact sha256_lt_256 hx

/-- All digests have 32 bytes. -/
theorem digest_length {d : Bytes} (h : ∃ m, d = sha256 m) : d.length = 32 := by
  obtain ⟨m, rfl⟩ := h
  exact sha256_length m

/-- The stored leaves of a tree over a non-empty leaf list. -/
theorem make_leaves {L : List Bytes} (h : L ≠ []) : (MerkleTree.make L).leaves = L := by
  simp [MerkleTree.make, if_neg h]

/-- The level list of a tree over a non-empty leaf list. -/
theorem make_tree {L : List Bytes} (h : L ≠ []) :
    (MerkleTree.make L).tree = buildLevels (L.map sha256) := by
  simp [MerkleTree.make, MerkleTree.build_tree, if_neg h]

/-- Every level entry of a Merkle tree over any leaf list is a digest. -/
theorem make_tree_digests (L : List Bytes) :
    ∀ lv ∈ (MerkleTree.make L).tree, ∀ d ∈ lv, ∃ m, d = sha256 m := by
  by_cases h : L = []
  · subst h
    intro lv hlv d hd
    simp [MerkleTree.make, MerkleTree.build_tree, buildLevels, buildLevelsCore] at hlv
    subst hlv
    simp at hd
    exact ⟨_, hd⟩
  · rw [make_tree h]
    unfold buildLevels
    refine buildLevelsCore_digests _ _ ?_
    intro d hd
    simp only [List.mem_map] at hd
    obtain ⟨a, _, rfl⟩ := hd
    exact ⟨a, rfl⟩

/-- The root of any Merkle tree is a digest. -/
theorem make_root_digest (L : List Bytes) : ∃ m, (MerkleTree.make L).root = sha256 m := by
  unfold MerkleTree.root
  split
  · rename_i d rest hlast
    exact make_tree_digests L _ (List.mem_of_getLast?_eq_some hlast) d
      (List.mem_cons_self d rest)
  · exact ⟨asciiOf "empty", rfl⟩

/-- Every path entry emitted by the prove walk over digest levels is a digest. -/
theorem proveGo_digests :
    ∀ (tree : List (List Bytes)) (i : Nat),
      (∀ lv ∈ tree, ∀ d ∈ lv, ∃ m, d = sha256 m) →
      ∀ pr ∈ proveGo tree i, ∃ m, pr.1 = sha256 m
  | [], i => by simp [proveGo]
  | level :: rest, i => by
      intro h pr hpr
      rw [proveGo] at hpr
      rw [List.mem_append] at hpr
      rcases hpr with hpr | hpr
      · split at hpr
        · rename_i hlt
          simp only [List.mem_singleton] at hpr
          subst hpr
          exact h level (by simp) _ (getD_mem_of_lt [] hlt)
        · simp at hpr
      · exact proveGo_digests rest (i / 2) (fun lv hlv => h lv (by simp [hlv])) pr hpr

/-- Every digest of a Merkle path produced by prove is a digest. -/
theorem make_prove_digests (L : List Bytes) (i : Nat) :
    ∀ pr ∈ (MerkleTree.make L).prove i, ∃ m, pr.1 = sha256 m := by
  unfold MerkleTree.prove
  refine proveGo_digests _ i ?_
  intro lv hlv
  exact make_tree_digests L lv (List.dropLast_subset _ hlv)

/-- Decoding the hex-encoded Merkle path of genuine digests. -/
theorem decodeProofTuples_hex (prs : List (Bytes × Bool))
    (h : ∀ pr ∈ prs, ∀ x ∈ pr.1, x < 256) :
    CUDATrueSTARK.decodeProofTuples (prs.map (fun pr => (hexBytes pr.1, pr.2))) = some prs := by
  induction prs with
  | nil => rfl
  | cons p rest ih =>
      simp only [List.map_cons]
      rw [CUDATrueSTARK.decodeProofTuples]
      rw [hexDecode_hexBytes p.1 (h p (by simp)), ih (fun pr hpr => h pr (by simp [hpr]))]
      rfl

/-! ### Length facts -/

/-- The trace loop produces exactly the requested number of cells. -/
theorem traceFrom_length (c n : Nat) : (CUDATrueSTARK.traceFrom c n).length = n := by
  induction n generalizing c with
  | zero => rfl
  | succ n ih => simp [CUDATrueSTARK.traceFrom, ih]

/-- Evaluation domains have the requested size. -/
theorem get_evaluation_domain_length (n : Nat) :
    (CUDAFiniteField.get_evaluation_domain n).length = n := by
  unfold CUDAFiniteField.get_evaluation_domain
  split <;> simp

/-- Taking every second element halves the length, rounding up. -/
theorem everySecond_length : ∀ l : List Nat, (everySecond l).length = (l.length + 1) / 2
  | [] => rfl
  | [a] => by simp [everySecond]
  | a :: b :: rest => by
      simp only [everySecond, List.length_cons, everySecond_length rest]
      omega

/-- Stripping trailing zeros never lengthens a list. -/
theorem stripTrailingZeros_length_le (l : List Nat) :
    (stripTrailingZeros l).length ≤ l.length := by
  cases hD : l.reverse.dropWhile (fun x => x == 0) with
  | nil =>
      simp only [stripTrailingZeros, hD]
      cases l with
      | nil => simp
      | cons a as => simp
  | cons a as =>
      simp only [stripTrailingZeros, hD]
      have hle := (List.dropWhile_sublist (l := l.reverse) (fun x => x == 0)).length_le
      rw [hD] at hle
      simp at hle ⊢
      omega

/-- The fold step bounds the coefficient count by half, rounded up (or one). -/
theorem foldPolyCoeffs_length_le (c : List Nat) (ch : Nat) :
    (foldPolyCoeffs c ch).length ≤ max 1 ((c.length + 1) / 2) := by
  unfold foldPolyCoeffs
  simp only [List.length_map, List.length_range]
  have he : (everySecond c).length = (c.length + 1) / 2 := everySecond_length c
  split
  · rename_i h1
    have ho : (everySecond (c.drop 1)).length = c.length / 2 := by
      rw [everySecond_length, List.length_drop]
      omega
    rw [he, ho]
    omega
  · simp only [List.length_singleton]
    rw [he]
    omega

/-! ### The trace always satisfies the AIR -/

/-- Field subtraction of equal values is zero. -/
theorem field_sub_self (x : Nat) : CUDAFiniteField.sub x x = 0 := by
  unfold CUDAFiniteField.sub
  simp

/-- The successor-built trace satisfies every transition constraint. -/
theorem checkTransitions_traceFrom :
    ∀ (n c : Nat), AIR.checkTransitions (CUDATrueSTARK.traceFrom c n) = true
  | 0, c => rfl
  | 1, c => rfl
  | n + 2, c => by
      show AIR.checkTransitions
        (c :: CUDAFiniteField.add c 1 ::
          CUDATrueSTARK.traceFrom (CUDAFiniteField.add (CUDAFiniteField.add c 1) 1) n) = true
      rw [AIR.checkTransitions]
      have h1 : AIR.transition_constraint c (CUDAFiniteField.add c 1) 0 = 0 := by
        unfold AIR.transition_constraint
        exact field_sub_self _
      rw [h1]
      have h2 := checkTransitions_traceFrom (n + 1) (CUDAFiniteField.add c 1)
      rw [CUDATrueSTARK.traceFrom] at h2
      rw [h2]
      rfl

/-- The boundary constraints compare trace cells with themselves, so they hold
for every trace. -/
theorem boundary_all (trace : List Nat) :
    (AIR.boundary_constraints trace).all (fun bc => trace.getD bc.1 0 == bc.2) = true := by
  unfold AIR.boundary_constraints
  rw [List.all_append]
  split <;> split <;> simp

/-- Every successor-built trace satisfies all AIR constraints. -/
theorem evaluate_all_traceFrom (c n : Nat) :
    AIR.evaluate_all_constraints (CUDATrueSTARK.traceFrom c n) = true := by
  unfold AIR.evaluate_all_constraints
  rw [checkTransitions_traceFrom, boundary_all]
  rfl

/-- The execution trace always satisfies all AIR constraints. -/
theorem evaluate_all_trace (s : Bytes) (w : Witness) (cfg : STARKConfig) :
    AIR.evaluate_all_constraints (CUDATrueSTARK.generate_execution_trace s w cfg) = true := by
  unfold CUDATrueSTARK.generate_execution_trace
  exact evaluate_all_traceFrom _ _

/-- The execution trace has trace_length cells. -/
theorem generate_execution_trace_length (s : Bytes) (w : Witness) (cfg : STARKConfig) :
    (CUDATrueSTARK.generate_execution_trace s w cfg).length = cfg.trace_length := by
  unfold CUDATrueSTARK.generate_execution_trace
  exact traceFrom_length _ _

/-! ### FFT length preservation and success -/

/-- Folds whose step preserves the length preserve the length. -/
theorem foldl_preserves_length {β : Type} (g : List Nat → β → List Nat)
    (hg : ∀ a b, (g a b).length = a.length) :
    ∀ (l : List β) (init : List Nat), (l.foldl g init).length = init.length
  | [], _ => rfl
  | b :: bs, init => by
      rw [List.foldl_cons, foldl_preserves_length g hg bs, hg]

/-- Pair-state folds whose step preserves the list length preserve it. -/
theorem foldl_fst_length {β γ : Type} (g : List Nat × γ → β → List Nat × γ)
    (hg : ∀ st b, ((g st b).1).length = st.1.length) :
    ∀ (l : List β) (st : List Nat × γ), ((l.foldl g st).1).length = st.1.length
  | [], _ => rfl
  | b :: bs, st => by
      rw [List.foldl_cons, foldl_fst_length g hg bs, hg]

/-- Swapping preserves the length. -/
theorem swapL_length (l : List Nat) (i j : Nat) :
    (CUDAFiniteField.swapL l i j).length = l.length := by
  simp [CUDAFiniteField.swapL]

/-- The bit-reverse permutation preserves the length. -/
theorem bitrevPermute_length (v : List Nat) :
    (CUDAFiniteField.bitrevPermute v).length = v.length := by
  unfold CUDAFiniteField.bitrevPermute
  exact foldl_preserves_length _
    (fun a b => by dsimp only; split <;> simp [swapL_length]) _ v

/-- A butterfly block preserves the length. -/
theorem butterflyBlock_length (w h : Nat) (a : List Nat) (s : Nat) :
    (CUDAFiniteField.butterflyBlock w h a s).length = a.length := by
  unfold CUDAFiniteField.butterflyBlock
  exact foldl_fst_length _ (fun st b => by simp) _ _

/-- One FFT pass preserves the length. -/
theorem fftPass_length (om n : Nat) (a : List Nat) (len : Nat) :
    (CUDAFiniteField.fftPass om n a len).length = a.length := by
  unfold CUDAFiniteField.fftPass
  exact foldl_preserves_length _ (fun x s => butterflyBlock_length _ _ x s) _ a

/-- The pass loop preserves the length. -/
theorem fftLoopGo_length (om n : Nat) :
    ∀ (f : Nat) (a : List Nat) (len : Nat),
      (CUDAFiniteField.fftLoopGo om n f a len).length = a.length
  | 0, _, _ => rfl
  | f + 1, a, len => by
      rw [CUDAFiniteField.fftLoopGo]
      split
      · rw [fftLoopGo_length om n f, fftPass_length]
      · rfl

set_option maxRecDepth 100000 in
/-- The inverse FFT succeeds on length-256 input and preserves the length. -/
theorem fft256_some (v : List Nat) (h : v.length = 256) :
    ∃ r, CUDAFiniteField.fft v true = some r ∧ r.length = 256 := by
  have hnz : CUDAFiniteField.get_primitive_root 256 ≠ 0 := by decide
  unfold CUDAFiniteField.fft
  dsimp only
  rw [h]
  rw [if_neg (by norm_num : ¬ (256 : Nat) = 1)]
  rw [if_neg (by decide : ¬ (256 &&& (256 - 1) ≠ 0))]
  have hi1 : CUDAFiniteField.inv (CUDAFiniteField.get_primitive_root 256) =
      some (powMod (CUDAFiniteField.get_primitive_root 256)
        (GOLDILOCKS_PRIME - 2) GOLDILOCKS_PRIME) := by
    simp [CUDAFiniteField.inv, hnz]
  have hi2 : CUDAFiniteField.inv 256 =
      some (powMod 256 (GOLDILOCKS_PRIME - 2) GOLDILOCKS_PRIME) := by
    simp [CUDAFiniteField.inv]
  rw [if_pos rfl, hi1]
  dsimp only
  rw [hi2]
  refine ⟨_, rfl, ?_⟩
  simp [CUDAFiniteField.fftPasses, fftLoopGo_length, bitrevPermute_length, h]

/-- from_evaluations takes the inverse-NTT path on length-256 input. -/
theorem from_evaluations_256 (v d : List Nat) (h : v.length = 256) :
    StarkPolynomial.from_evaluations v d = (CUDAFiniteField.fft v true).map StarkPolynomial.make := by
  unfold StarkPolynomial.from_evaluations
  dsimp only
  rw [h]
  rw [if_pos (by constructor <;> decide)]

/-- One unfolding of the FRI commit loop when the domain is large enough. -/
theorem friGo_succ (q fuel : Nat) (p : StarkPolynomial) (d : List Nat)
    (h : d.length > q * 2) :
    friGo q (fuel + 1) p d =
      (let evaluations := p.evaluate_domain d
       let tree := MerkleTree.make (evaluations.map decBytes)
       let challenge := bytesToNat (sha256 (MerkleTree.root tree)) % GOLDILOCKS_PRIME
       let nextPoly := StarkPolynomial.make (foldPolyCoeffs p.coefficients challenge)
       let nextDomain := (everySecond d).map (fun x => CUDAFiniteField.mul x x)
       let rec0 := friGo q fuel nextPoly nextDomain
       (tree :: rec0.1, challenge :: rec0.2.1, nextPoly :: rec0.2.2)) := by
  conv_lhs => rw [friGo]
  rw [if_pos h]

/-- The FRI commit loop stops on small domains. -/
theorem friGo_stop (q fuel : Nat) (p : StarkPolynomial) (d : List Nat)
    (h : ¬ d.length > q * 2) :
    friGo q fuel p d = ([], [], []) := by
  cases fuel with
  | zero => rfl
  | succ f =>
      conv_lhs => rw [friGo]
      rw [if_neg h]

/-- A layer check of verify_proof succeeds on an honest opening: the Merkle
path of a power-of-two tree verifies after the hex round trip.  (verify
ignores its index argument, so no relation between the response index and
the opened index is needed.) -/
theorem checkLayer_true (friRoots : List Bytes) (qi lidx : Nat) (L : List Bytes)
    (k idx : Nat) (sib : Bytes)
    (hL : L.length = 2 ^ k) (hidx : idx < L.length)
    (hroot : friRoots.getD lidx [] = hexBytes (MerkleTree.make L).root) :
    CUDATrueSTARK.checkLayer friRoots qi lidx
      { value := L.getD idx [],
        sibling_value := sib,
        merkle_proof := ((MerkleTree.make L).prove idx).map (fun pr => (hexBytes pr.1, pr.2)) } =
      true := by
  unfold CUDATrueSTARK.checkLayer
  dsimp only
  rw [decodeProofTuples_hex _ (fun pr hpr => digest_bytes_lt (make_prove_digests L idx pr hpr))]
  rw [hroot, hexDecode_hexBytes _ (digest_bytes_lt (make_root_digest L))]
  dsimp only
  rw [if_neg]
  intro hcon
  exact hcon.2 (merkle_roundtrip_pow2 L k idx hL hidx)

/-- The FRI commit phase under any configuration with the default query and
layer counts on a 1024-point domain runs exactly three folding layers. -/
theorem friCommit_default (cfg : STARKConfig) (hq : cfg.num_queries = 80)
    (hf : cfg.num_fri_layers = 10)
    (p0 : StarkPolynomial) (d0 : List Nat) (hd0 : d0.length = 1024) :
    ∃ t1 t2 c0 c1 c2 p1 p2 p3 d1 d2,
      FRI.commit cfg p0 d0 =
        ([MerkleTree.make ((p0.evaluate_domain d0).map decBytes), t1, t2],
          [c0, c1, c2], [p0, p1, p2, p3]) ∧
        t1 = MerkleTree.make ((p1.evaluate_domain d1).map decBytes) ∧
        t2 = MerkleTree.make ((p2.evaluate_domain d2).map decBytes) ∧
        d1.length = 512 ∧ d2.length = 256 ∧
        p1 = StarkPolynomial.make (foldPolyCoeffs p0.coefficients c0) ∧
        p2 = StarkPolynomial.make (foldPolyCoeffs p1.coefficients c1) ∧
        p3 = StarkPolynomial.make (foldPolyCoeffs p2.coefficients c2) := by
  unfold FRI.commit
  rw [hq, hf]
  set t0 := MerkleTree.make ((p0.evaluate_domain d0).map decBytes) with ht0
  set c0 := bytesToNat (sha256 (MerkleTree.root t0)) % GOLDILOCKS_PRIME with hc0
  set p1 := StarkPolynomial.make (foldPolyCoeffs p0.coefficients c0) with hp1
  set d1 := (everySecond d0).map (fun x => CUDAFiniteField.mul x x) with hd1def
  have hd1 : d1.length = 512 := by
    rw [hd1def, List.length_map, everySecond_length, hd0]
  set t1 := MerkleTree.make ((p1.evaluate_domain d1).map decBytes) with ht1
  set c1 := bytesToNat (sha256 (MerkleTree.root t1)) % GOLDILOCKS_PRIME with hc1
  set p2 := StarkPolynomial.make (foldPolyCoeffs p1.coefficients c1) with hp2
  set d2 := (everySecond d1).map (fun x => CUDAFiniteField.mul x x) with hd2def
  have hd2 : d2.length = 256 := by
    rw [hd2def, List.length_map, everySecond_length, hd1]
  set t2 := MerkleTree.make ((p2.evaluate_domain d2).map decBytes) with ht2
  set c2 := bytesToNat (sha256 (MerkleTree.root t2)) % GOLDILOCKS_PRIME with hc2
  set p3 := StarkPolynomial.make (foldPolyCoeffs p2.coefficients c2) with hp3
  set d3 := (everySecond d2).map (fun x => CUDAFiniteField.mul x x) with hd3def
  have hd3 : d3.length = 128 := by
    rw [hd3def, List.length_map, everySecond_length, hd2]
  have h1 : friGo 80 10 p0 d0 =
      (t0 :: (friGo 80 9 p1 d1).1, c0 :: (friGo 80 9 p1 d1).2.1,
        p1 :: (friGo 80 9 p1 d1).2.2) := by
    rw [show (10 : Nat) = 9 + 1 from rfl, friGo_succ 80 9 p0 d0 (by omega)]
  have h2 : friGo 80 9 p1 d1 =
      (t1 :: (friGo 80 8 p2 d2).1, c1 :: (friGo 80 8 p2 d2).2.1,
        p2 :: (friGo 80 8 p2 d2).2.2) := by
    rw [show (9 : Nat) = 8 + 1 from rfl, friGo_succ 80 8 p1 d1 (by omega)]
  have h3 : friGo 80 8 p2 d2 =
      (t2 :: (friGo 80 7 p3 d3).1, c2 :: (friGo 80 7 p3 d3).2.1,
        p3 :: (friGo 80 7 p3 d3).2.2) := by
    rw [show (8 : Nat) = 7 + 1 from rfl, friGo_succ 80 7 p2 d2 (by omega)]
  have h4 : friGo 80 7 p3 d3 = ([], [], []) := friGo_stop 80 7 p3 d3 (by omega)
  rw [h1, h2, h3, h4]
  exact ⟨t1, t2, c0, c1, c2, p1, p2, p3, d1, d2, rfl, rfl, rfl, hd1, hd2, rfl, rfl, rfl⟩

set_option maxHeartbeats 1000000 in
/-- verify_proof accepts every honestly-shaped transcript: the three FRI
roots are hex-encoded roots of power-of-two Merkle trees, the query
responses open those trees at in-range indices, the statement hash is the
canonical one, the final polynomial is short, and the AIR flag is set. -/
theorem verify_honest_transcript (s st ver pro : Bytes)
    (tl etl bf sl nq po gt tsp : Nat) (ca vf : Bool)
    (fc : List Bytes) (qidx : List Nat) (ffp : List Bytes)
    (L0 L1 L2 : List Bytes) (indices : List Nat)
    (h0 : L0.length = 2 ^ 10) (h1 : L1.length = 2 ^ 9) (h2 : L2.length = 2 ^ 8)
    (hidx : ∀ qi ∈ indices, qi < 1024)
    (hresp : indices.length ≥ 40)
    (hffp : ¬ ffp.length > 80) :
    CUDATrueSTARK.verify_proof defaultConfig
      { version := ver, protocol := pro, trace_length := tl, extended_trace_length := etl,
        blowup_factor := bf,
        trace_merkle_root := hexBytes (MerkleTree.make L0).root,
        fri_roots := [hexBytes (MerkleTree.make L0).root, hexBytes (MerkleTree.make L1).root,
          hexBytes (MerkleTree.make L2).root],
        fri_challenges := fc,
        fri_final_polynomial := ffp,
        query_indices := qidx,
        query_responses := indices.map (fun qi =>
          { index := qi,
            layers := FRI.layersForGo
              [MerkleTree.make L0, MerkleTree.make L1, MerkleTree.make L2] qi }),
        field_prime := decBytes GOLDILOCKS_PRIME, security_level := sl, num_queries := nq,
        statement_hash := some (decBytes (bytesToNat (sha256 s) % GOLDILOCKS_PRIME)),
        statement := st, public_output := po, generation_time := gt, timestamp := tsp,
        cuda_accelerated := ca, air_satisfied := some true, verified := vf } s = true := by
  have hne0 : L0 ≠ [] := by
    intro hcon
    rw [hcon] at h0
    simp at h0
  have hne1 : L1 ≠ [] := by
    intro hcon
    rw [hcon] at h1
    simp at h1
  have hne2 : L2 ≠ [] := by
    intro hcon
    rw [hcon] at h2
    simp at h2
  have hlv0 : (MerkleTree.make L0).leaves = L0 := make_leaves hne0
  have hlv1 : (MerkleTree.make L1).leaves = L1 := make_leaves hne1
  have hlv2 : (MerkleTree.make L2).leaves = L2 := make_leaves hne2
  have hcq : CUDATrueSTARK.checkQueries
      [hexBytes (MerkleTree.make L0).root, hexBytes (MerkleTree.make L1).root,
        hexBytes (MerkleTree.make L2).root]
      (indices.map (fun qi =>
        { index := qi,
          layers := FRI.layersForGo
            [MerkleTree.make L0, MerkleTree.make L1, MerkleTree.make L2] qi })) = true := by
    unfold CUDATrueSTARK.checkQueries
    rw [List.all_eq_true]
    intro resp hrespmem
    rw [List.mem_map] at hrespmem
    obtain ⟨qi, hqimem, rfl⟩ := hrespmem
    have hqi : qi < 1024 := hidx qi hqimem
    have hg0 : qi < (MerkleTree.make L0).leaves.length := by
      rw [hlv0, h0]
      omega
    have hg1 : qi / 2 < (MerkleTree.make L1).leaves.length := by
      rw [hlv1, h1]
      omega
    have hg2 : qi / 2 / 2 < (MerkleTree.make L2).leaves.length := by
      rw [hlv2, h2]
      omega
    dsimp only
    rw [FRI.layersForGo, if_pos hg0]
    rw [FRI.layersForGo, if_pos hg1]
    rw [FRI.layersForGo, if_pos hg2]
    rw [FRI.layersForGo]
    simp only [List.singleton_append, List.append_nil, List.length_cons, List.length_nil]
    rw [List.take_succ_cons, List.take_succ_cons, List.take_succ_cons, List.take_zero]
    rw [List.enum_cons, List.enumFrom_cons, List.enumFrom_cons, List.enumFrom_nil]
    rw [List.all_cons, List.all_cons, List.all_cons, List.all_nil]
    simp only [Bool.and_true, Bool.and_eq_true]
    rw [hlv0, hlv1, hlv2]
    refine ⟨?_, ?_, ?_⟩
    · exact checkLayer_true
        [hexBytes (MerkleTree.make L0).root, hexBytes (MerkleTree.make L1).root,
          hexBytes (MerkleTree.make L2).root] qi 0 L0 10 qi _ h0 (by omega) rfl
    · exact checkLayer_true
        [hexBytes (MerkleTree.make L0).root, hexBytes (MerkleTree.make L1).root,
          hexBytes (MerkleTree.make L2).root] qi 1 L1 9 (qi / 2) _ h1 (by omega) rfl
    · exact checkLayer_true
        [hexBytes (MerkleTree.make L0).root, hexBytes (MerkleTree.make L1).root,
          hexBytes (MerkleTree.make L2).root] qi 2 L2 8 (qi / 2 / 2) _ h2 (by omega) rfl
  unfold CUDATrueSTARK.verify_proof
  dsimp only
  rw [parseDec_decBytes]
  dsimp only
  rw [if_neg (show ¬ (bytesToNat (sha256 s) % GOLDILOCKS_PRIME ≠
      bytesToNat (sha256 s) % GOLDILOCKS_PRIME) from fun hh => hh rfl)]
  rw [if_neg (show ¬ (decBytes GOLDILOCKS_PRIME ≠ decBytes GOLDILOCKS_PRIME) from
    fun hh => hh rfl)]
  rw [if_neg (show ¬ ((hexBytes (MerkleTree.make L0).root).length ≠ 64) from
    fun hh => hh (by rw [hexBytes_length, digest_length (make_root_digest L0)]))]
  rw [hexDecode_hexBytes _ (digest_bytes_lt (make_root_digest L0))]
  dsimp only
  rw [if_neg (show ¬ (([hexBytes (MerkleTree.make L0).root,
      hexBytes (MerkleTree.make L1).root, hexBytes (MerkleTree.make L2).root] :
        List Bytes) = []) from by simp)]
  rw [if_neg (show ¬ (([hexBytes (MerkleTree.make L0).root,
      hexBytes (MerkleTree.make L1).root, hexBytes (MerkleTree.make L2).root] :
        List Bytes).getD 0 [] ≠ hexBytes (MerkleTree.make L0).root) from
    fun hh => hh rfl)]
  rw [if_neg (show ¬ (indices.map (fun qi =>
      ({ index := qi,
         layers := FRI.layersForGo
           [MerkleTree.make L0, MerkleTree.make L1, MerkleTree.make L2] qi } :
        QueryResponse))).length < defaultConfig.num_queries / 2 from by
    rw [List.length_map]
    show ¬ indices.length < 40
    omega)]
  rw [hcq]
  rw [if_neg (by simp)]
  rw [if_neg (show ¬ ffp.length > defaultConfig.num_queries from hffp)]
  rw [if_neg (by simp)]

set_option maxRecDepth 100000 in
set_option maxHeartbeats 2000000 in
/-- Completeness of the pipeline for any configuration with the default
field values: the honestly generated transcript is accepted.  The
configuration is kept as a variable equal to the default so that each
rewriting step stays small. -/
theorem c1_roundtrip_general (cfg : STARKConfig) (s : Bytes) (w : Witness)
    (tg ts : Nat) (hcfg : cfg = defaultConfig) :
    (CUDATrueSTARK.generate_proof cfg s w tg ts).map
      (fun t => CUDATrueSTARK.verify_proof defaultConfig t s) = some true := by
  have htlen : (CUDATrueSTARK.generate_execution_trace s w cfg).length = 256 :=
    (generate_execution_trace_length s w cfg).trans (by rw [hcfg]; rfl)
  obtain ⟨r, hfft, hrlen⟩ := fft256_some _ htlen
  have hfe : StarkPolynomial.from_evaluations
      (CUDATrueSTARK.generate_execution_trace s w cfg)
      (CUDAFiniteField.get_evaluation_domain
        (CUDATrueSTARK.generate_execution_trace s w cfg).length) =
      some (StarkPolynomial.make r) := by
    rw [from_evaluations_256 _ _ htlen, hfft]
    rfl
  unfold CUDATrueSTARK.generate_proof
  dsimp only
  rw [evaluate_all_trace]
  rw [if_neg (show ¬ ¬ (true = true) from by simp)]
  rw [hfe]
  dsimp only
  simp only [Option.map_some']
  rw [htlen]
  have hbf : cfg.blowup_factor = 4 := by rw [hcfg]; rfl
  have hnq : cfg.num_queries = 80 := by rw [hcfg]; rfl
  rw [hbf, hnq]
  simp only [Nat.reduceMul]
  rw [if_pos (show (GOLDILOCKS_PRIME - 1) % 2048 = 0 from by decide)]
  set ED := List.map (fun x => (x + CUDAFiniteField.get_primitive_root 2048) % GOLDILOCKS_PRIME)
    (CUDAFiniteField.get_evaluation_domain 1024) with hED
  have hEDlen : ED.length = 1024 := by
    rw [hED, List.length_map, get_evaluation_domain_length]
  obtain ⟨t1, t2, c0, c1, c2, p1X, p2X, p3X, d1, d2, hcommit, ht1, ht2, hd1, hd2,
    hp1X, hp2X, hp3X⟩ := friCommit_default cfg hnq (by subst hcfg; rfl)
      (StarkPolynomial.make r) ED hEDlen
  rw [hcommit]
  dsimp only
  have hext : ((StarkPolynomial.make r).evaluate_domain ED).length = 1024 := by
    rw [StarkPolynomial.evaluate_domain, List.length_map, hEDlen]
  rw [hext]
  simp only [List.map_cons, List.map_nil]
  rw [ht1, ht2]
  simp only [FRI.query]
  rw [show ([StarkPolynomial.make r, p1X, p2X, p3X].getLast?) = some p3X from rfl]
  dsimp only
  refine congrArg some ?_
  have hplen : ∀ (c : List Nat) (ch : Nat),
      (StarkPolynomial.make (foldPolyCoeffs c ch)).coefficients.length ≤
        max 1 ((c.length + 1) / 2) :=
    fun c ch => le_trans (stripTrailingZeros_length_le _) (foldPolyCoeffs_length_le c ch)
  have b0 : (StarkPolynomial.make r).coefficients.length ≤ 256 := by
    have := stripTrailingZeros_length_le r
    rw [hrlen] at this
    exact this
  have b1 : p1X.coefficients.length ≤ 128 := by
    rw [hp1X]
    have := hplen (StarkPolynomial.make r).coefficients c0
    omega
  have b2 : p2X.coefficients.length ≤ 64 := by
    rw [hp2X]
    have := hplen p1X.coefficients c1
    omega
  have b3 : p3X.coefficients.length ≤ 32 := by
    rw [hp3X]
    have := hplen p2X.coefficients c2
    omega
  exact verify_honest_transcript s s _ _ _ _ _ _ _ _ _ _ _ _ _ _ _ _ _ _ _
    (by rw [List.length_map, hext]; norm_num)
    (by rw [List.length_map, StarkPolynomial.evaluate_domain, List.length_map, hd1]; norm_num)
    (by rw [List.length_map, StarkPolynomial.evaluate_domain, List.length_map, hd2]; norm_num)
    (by
      intro qi hqi
      rw [List.mem_map] at hqi
      obtain ⟨i, _, rfl⟩ := hqi
      exact Nat.mod_lt _ (by norm_num))
    (by rw [List.length_map, List.length_range]; omega)
    (by rw [List.length_map]; omega)

/-- C1: completeness of the prove/verify round trip under the default
configuration: whenever generate_proof succeeds (it always does here), the
transcript produced by generate_proof is accepted by verify_proof with
the same statement. -/
theorem c1_prove_verify_roundtrip (s : Bytes) (w : Witness) (tg ts : Nat) :
    (CUDATrueSTARK.generate_proof defaultConfig s w tg ts).map
      (fun t => CUDATrueSTARK.verify_proof defaultConfig t s) = some true :=
  c1_roundtrip_general defaultConfig s w tg ts rfl
